import Mathlib

/-!
Verification of the AST post-processing pipeline in
`cmake/codegen/generate_cxx_ast.py`.

The script consumes the JSON AST dump produced by clang, merges multiple
top-level JSON fragments, and runs several enrichment passes over the tree
(annotation extraction, WIT-format naming, signature extraction, first/last
ordering flags, and checksum computation), before assembling the final
document.  This file gives a shallow embedding of the JSON data model and of
those passes, and proves the claimed properties about them.

Modelling conventions:
* JSON values are the inductive `JValue`; JSON numbers are modelled as `Nat`
  (every number the pipeline produces or inspects is an unsigned integer).
* Python dicts are association lists `List (String × JValue)` in insertion
  order; `d[k] = v` replaces in place when the key exists and appends
  otherwise (`setField`), exactly like a Python dict.
* Python string operations are modelled on `List Char`; the identifiers in
  scope are ASCII, for which Lean's `Char.isUpper`/`Char.toLower`/
  `Char.toUpper` coincide with Python's `str.isupper`/`str.lower`/
  `str.upper`.
* Fields that the source reads with `.get(key, default)` and then uses as a
  string are modelled by `getStrD`; a present non-string value would make
  Python raise a `TypeError` further down and is outside the modelled
  domain (see `JWellFormed`).
-/

/-- A JSON value, as handled by the `json` module: the post-processor only
ever produces or inspects null, booleans, unsigned integers, strings,
arrays and objects. -/
inductive JValue where
  | null
  | bool (b : Bool)
  | num (n : Nat)
  | str (s : String)
  | arr (elems : List JValue)
  | obj (fields : List (String × JValue))

/-- Python `d.get(k)` on an association list: first binding wins (keys of a
parsed JSON object are unique anyway). -/
def lookupField : List (String × JValue) → String → Option JValue
  | [], _ => none
  | (k, v) :: tl, key => if k = key then some v else lookupField tl key

/-- Python `k in d`. -/
def hasField (fs : List (String × JValue)) (key : String) : Bool :=
  (lookupField fs key).isSome

/-- Python `d[k] = v`: replace in place when present, append otherwise. -/
def setField : List (String × JValue) → String → JValue → List (String × JValue)
  | [], key, v => [(key, v)]
  | (k, w) :: tl, key, v =>
    if k = key then (k, v) :: tl else (k, w) :: setField tl key v

/-- A sequence of Python dict assignments, applied left to right. -/
def applySets (fs : List (String × JValue)) (us : List (String × JValue)) :
    List (String × JValue) :=
  us.foldl (fun acc u => setField acc u.1 u.2) fs

/-- Python truthiness of a JSON value (`if x:`). -/
def jTruthy : JValue → Bool
  | .null => false
  | .bool b => b
  | .num n => n != 0
  | .str s => s != ""
  | .arr es => !es.isEmpty
  | .obj fs => !fs.isEmpty

/-- `node.get(key)` restricted to dict nodes (the source only calls `.get`
on values it has checked with `isinstance(node, dict)`). -/
def getField (node : JValue) (key : String) : Option JValue :=
  match node with
  | .obj fs => lookupField fs key
  | _ => none

/-- `node.get(key, default)` for a string-valued field.  A present
non-string value would raise in Python when later used as a string and is
outside the modelled domain. -/
def getStrD (node : JValue) (key : String) (d : String) : String :=
  match getField node key with
  | some (.str s) => s
  | _ => d

/-- `x = node.get(key)` followed by `if x:`, for a string-valued field:
yields the string when present and non-empty. -/
def getTruthyStr (node : JValue) (key : String) : Option String :=
  match getField node key with
  | some (.str s) => if s = "" then none else some s
  | _ => none

/-- The `kind` discriminator of a node.  Python compares
`node.get("kind") == "X"`, which is `False` for a missing or non-string
kind, matching this model. -/
def kindOf (node : JValue) : Option String :=
  match getField node "kind" with
  | some (.str s) => some s
  | _ => none

/-- `node.get("kind") == k`. -/
def hasKind (node : JValue) (k : String) : Bool :=
  kindOf node == some k

/-! ### Basic lemmas about field access -/

theorem lookupField_setField_self (fs : List (String × JValue)) (k : String)
    (v : JValue) : lookupField (setField fs k v) k = some v := by
  induction fs with
  | nil => simp [setField, lookupField]
  | cons hd tl ih =>
    obtain ⟨k', w⟩ := hd
    by_cases h : k' = k <;> simp [setField, lookupField, h, ih]

theorem lookupField_setField_ne (fs : List (String × JValue)) (k k' : String)
    (v : JValue) (h : k' ≠ k) :
    lookupField (setField fs k v) k' = lookupField fs k' := by
  induction fs with
  | nil => simp [setField, lookupField, Ne.symm h]
  | cons hd tl ih =>
    obtain ⟨k'', w⟩ := hd
    by_cases h2 : k'' = k
    · subst h2
      have hne : ¬(k'' = k') := fun hh => h hh.symm
      simp [setField, lookupField, hne]
    · by_cases h3 : k'' = k'
      · subst h3
        simp [setField, lookupField, h2]
      · simp [setField, lookupField, h2, h3, ih]

/-- Membership in a dict after an assignment: the value is either the
assigned one or was already present. -/
theorem mem_setField {fs : List (String × JValue)} {k k' : String}
    {v v' : JValue} (h : (k', v') ∈ setField fs k v) :
    v' = v ∨ (k', v') ∈ fs := by
  induction fs with
  | nil =>
    simp [setField] at h
    exact Or.inl h.2
  | cons hd tl ih =>
    obtain ⟨k'', w⟩ := hd
    by_cases h2 : k'' = k
    · subst h2
      simp [setField] at h
      rcases h with ⟨_, h⟩ | h
      · exact Or.inl h
      · exact Or.inr (List.mem_cons_of_mem _ h)
    · simp [setField, h2] at h
      rcases h with ⟨h3, h4⟩ | h
      · exact Or.inr (by simp [h3, h4])
      · rcases ih h with h | h
        · exact Or.inl h
        · exact Or.inr (List.mem_cons_of_mem _ h)

theorem mem_applySets {fs us : List (String × JValue)} {k : String}
    {v : JValue} (h : (k, v) ∈ applySets fs us) :
    (∃ k', (k', v) ∈ us) ∨ (k, v) ∈ fs := by
  induction us generalizing fs with
  | nil => exact Or.inr h
  | cons u tl ih =>
    rcases @ih (setField fs u.1 u.2) h with ⟨k', hk⟩ | hmem
    · exact Or.inl ⟨k', List.mem_cons_of_mem _ hk⟩
    · rcases mem_setField hmem with h2 | h2
      · exact Or.inl ⟨u.1, by simp [h2]⟩
      · exact Or.inr h2

theorem applySets_cons (fs : List (String × JValue)) (u : String × JValue)
    (us : List (String × JValue)) :
    applySets fs (u :: us) = applySets (setField fs u.1 u.2) us := rfl

theorem setField_preserves_keys (fs : List (String × JValue)) (k : String)
    (v : JValue) (k' : String) (h : hasField fs k' = true) :
    hasField (setField fs k v) k' = true := by
  by_cases h2 : k' = k
  · subst h2
    simp [hasField, lookupField_setField_self]
  · simpa [hasField, lookupField_setField_ne _ _ _ _ h2] using h

/-! ### The fingerprint engine: SHA-256, first 8 bytes, little-endian

`calculate_function_checksum`, `calculate_interface_checksum` and
`calculate_name_hash` all compute
`int.from_bytes(hashlib.sha256(s.encode("utf-8")).digest()[:8], "little")`.
SHA-256 is embedded below on `Nat` with explicit truncation mod 2^32;
the NIST test vectors for the empty string and "abc" are checked by `rfl`
further down. -/

/-- Truncation to a 32-bit word. -/
def w32 (x : Nat) : Nat := x % 4294967296

/-- 32-bit right rotation (input assumed < 2^32). -/
def rotr32 (n x : Nat) : Nat := w32 ((x >>> n) ||| (x <<< (32 - n)))

/-- 32-bit bitwise complement. -/
def not32 (x : Nat) : Nat := x ^^^ 4294967295

/-- Round constants 0-7. -/
def sha256Kq0 : List Nat :=
  [0x428a2f98, 0x71374491, 0xb5c0fbcf, 0xe9b5dba5,
   0x3956c25b, 0x59f111f1, 0x923f82a4, 0xab1c5ed5]

/-- Round constants 8-15. -/
def sha256Kq1 : List Nat :=
  [0xd807aa98, 0x12835b01, 0x243185be, 0x550c7dc3,
   0x72be5d74, 0x80deb1fe, 0x9bdc06a7, 0xc19bf174]

/-- Round constants 16-23. -/
def sha256Kq2 : List Nat :=
  [0xe49b69c1, 0xefbe4786, 0x0fc19dc6, 0x240ca1cc,
   0x2de92c6f, 0x4a7484aa, 0x5cb0a9dc, 0x76f988da]

/-- Round constants 24-31. -/
def sha256Kq3 : List Nat :=
  [0x983e5152, 0xa831c66d, 0xb00327c8, 0xbf597fc7,
   0xc6e00bf3, 0xd5a79147, 0x06ca6351, 0x14292967]

/-- Round constants 32-39. -/
def sha256Kq4 : List Nat :=
  [0x27b70a85, 0x2e1b2138, 0x4d2c6dfc, 0x53380d13,
   0x650a7354, 0x766a0abb, 0x81c2c92e, 0x92722c85]

/-- Round constants 40-47. -/
def sha256Kq5 : List Nat :=
  [0xa2bfe8a1, 0xa81a664b, 0xc24b8b70, 0xc76c51a3,
   0xd192e819, 0xd6990624, 0xf40e3585, 0x106aa070]

/-- Round constants 48-55. -/
def sha256Kq6 : List Nat :=
  [0x19a4c116, 0x1e376c08, 0x2748774c, 0x34b0bcb5,
   0x391c0cb3, 0x4ed8aa4a, 0x5b9cca4f, 0x682e6ff3]

/-- Round constants 56-63. -/
def sha256Kq7 : List Nat :=
  [0x748f82ee, 0x78a5636f, 0x84c87814, 0x8cc70208,
   0x90befffa, 0xa4506ceb, 0xbef9a3f7, 0xc67178f2]

/-- The 64 round constants (FIPS 180-4, section 4.2.2). -/
def sha256K : List Nat :=
  sha256Kq0 ++ sha256Kq1 ++ sha256Kq2 ++ sha256Kq3 ++
    sha256Kq4 ++ sha256Kq5 ++ sha256Kq6 ++ sha256Kq7

/-- The initial hash state H(0) (FIPS 180-4, section 5.3.3). -/
def sha256InitState : List Nat :=
  [0x6a09e667, 0xbb67ae85, 0x3c6ef372,
   0xa54ff53a, 0x510e527f, 0x9b05688c,
   0x1f83d9ab, 0x5be0cd19]

/-- UTF-8 encoding of one character, as `str.encode("utf-8")` produces. -/
def utf8Char (c : Char) : List Nat :=
  let n := c.toNat
  if n < 0x80 then [n]
  else if n < 0x800 then
    [0xC0 ||| (n >>> 6), 0x80 ||| (n &&& 0x3F)]
  else if n < 0x10000 then
    [0xE0 ||| (n >>> 12), 0x80 ||| ((n >>> 6) &&& 0x3F), 0x80 ||| (n &&& 0x3F)]
  else
    [0xF0 ||| (n >>> 18), 0x80 ||| ((n >>> 12) &&& 0x3F),
     0x80 ||| ((n >>> 6) &&& 0x3F), 0x80 ||| (n &&& 0x3F)]

/-- `s.encode("utf-8")` as a byte list. -/
def strBytes (s : String) : List Nat :=
  (s.data.map utf8Char).flatten

/-- Big-endian 8-byte encoding of the 64-bit message length. -/
def beBytes8 (n : Nat) : List Nat :=
  [(n >>> 56) &&& 255, (n >>> 48) &&& 255, (n >>> 40) &&& 255,
   (n >>> 32) &&& 255, (n >>> 24) &&& 255, (n >>> 16) &&& 255,
   (n >>> 8) &&& 255, n &&& 255]

/-- Big-endian 4-byte encoding of a 32-bit word. -/
def beBytes4 (n : Nat) : List Nat :=
  [(n >>> 24) &&& 255, (n >>> 16) &&& 255, (n >>> 8) &&& 255, n &&& 255]

/-- SHA-256 padding: append 0x80, zero bytes to 56 mod 64, then the
bit length, big-endian. -/
def sha256Pad (msg : List Nat) : List Nat :=
  let len := msg.length
  let zeros := (55 + 64 - len % 64) % 64
  msg ++ [0x80] ++ List.replicate zeros 0 ++ beBytes8 (8 * len)

/-- Big-endian 32-bit words from a byte list whose length is a multiple
of 4. -/
def bytesToWords : List Nat → List Nat
  | b0 :: b1 :: b2 :: b3 :: rest =>
    ((b0 <<< 24) ||| (b1 <<< 16) ||| (b2 <<< 8) ||| b3) :: bytesToWords rest
  | _ => []

/-- Split a word list into 16-word blocks. -/
def toBlocks : List Nat → List (List Nat)
  | w0 :: w1 :: w2 :: w3 :: w4 :: w5 :: w6 :: w7 ::
    w8 :: w9 :: w10 :: w11 :: w12 :: w13 :: w14 :: w15 :: rest =>
    [w0, w1, w2, w3, w4, w5, w6, w7, w8, w9, w10, w11, w12, w13, w14, w15]
      :: toBlocks rest
  | _ => []

def smallSigma0 (x : Nat) : Nat := (rotr32 7 x) ^^^ (rotr32 18 x) ^^^ (x >>> 3)
def smallSigma1 (x : Nat) : Nat := (rotr32 17 x) ^^^ (rotr32 19 x) ^^^ (x >>> 10)
def bigSigma0 (x : Nat) : Nat := (rotr32 2 x) ^^^ (rotr32 13 x) ^^^ (rotr32 22 x)
def bigSigma1 (x : Nat) : Nat := (rotr32 6 x) ^^^ (rotr32 11 x) ^^^ (rotr32 25 x)
def chFn (x y z : Nat) : Nat := (x &&& y) ^^^ ((not32 x) &&& z)
def majFn (x y z : Nat) : Nat := (x &&& y) ^^^ (x &&& z) ^^^ (y &&& z)

/-- One step of the message-schedule extension.  `ws` holds the schedule
so far in reverse (most recent word first). -/
def scheduleStep (ws : List Nat) : Nat :=
  w32 (smallSigma1 (ws.getD 1 0) + ws.getD 6 0 +
       smallSigma0 (ws.getD 14 0) + ws.getD 15 0)

/-- Extend the (reversed) schedule by `k` more words, returning the full
schedule in forward order. -/
def buildSchedule : Nat → List Nat → List Nat
  | 0, ws => ws.reverse
  | k + 1, ws => buildSchedule k (scheduleStep ws :: ws)

/-- One round of the SHA-256 compression function on the 8-word state. -/
def compressRound (st : List Nat) (kw : Nat × Nat) : List Nat :=
  match st with
  | [a, b, c, d, e, f, g, h] =>
    let t1 := w32 (h + bigSigma1 e + chFn e f g + kw.1 + kw.2)
    let t2 := w32 (bigSigma0 a + majFn a b c)
    [w32 (t1 + t2), a, b, c, w32 (d + t1), e, f, g]
  | st => st

/-- Process one 16-word block. -/
def compressBlock (h : List Nat) (block : List Nat) : List Nat :=
  let ws := buildSchedule 48 block.reverse
  let st := (sha256K.zip ws).foldl compressRound h
  (h.zip st).map (fun p => w32 (p.1 + p.2))

/-- The eight 32-bit words of the SHA-256 state after absorbing `msg`. -/
def sha256Words (msg : List Nat) : List Nat :=
  (toBlocks (bytesToWords (sha256Pad msg))).foldl compressBlock sha256InitState

/-- `hashlib.sha256(msg).digest()` as a byte list. -/
def sha256Digest (msg : List Nat) : List Nat :=
  ((sha256Words msg).map beBytes4).flatten

/-- `int.from_bytes(bytes, "little", signed=False)`. -/
def leNat : List Nat → Nat
  | [] => 0
  | b :: tl => b + 256 * leNat tl

/-- `int.from_bytes(hashlib.sha256(s.encode("utf-8")).digest()[:8], "little")`
— the common core of all three fingerprint functions. -/
def digest64 (s : String) : Nat :=
  leNat ((sha256Digest (strBytes s)).take 8)

/-- NIST test vector: SHA-256 of the empty message. -/
theorem sha256_empty_vector :
    sha256Words [] =
      [0xe3b0c442, 0x98fc1c14, 0x9afbf4c8, 0x996fb924,
       0x27ae41e4, 0x649b934c, 0xa495991b, 0x7852b855] := by
  rfl

/-- NIST test vector: SHA-256 of "abc". -/
theorem sha256_abc_vector :
    sha256Words (strBytes "abc") =
      [0xba7816bf, 0x8f01cfea, 0x414140de, 0x5dae2223,
       0xb00361a3, 0x96177a9c, 0xb410ff61, 0xf20015ad] := by
  rfl

/-- Python `sorted` on a list of integers (ascending).  `insertionSort` is
used because its result — the unique `≤`-sorted permutation — coincides
with Python's sort on `Nat`. -/
def pySorted (l : List Nat) : List Nat :=
  List.insertionSort (· ≤ ·) l

/-- `calculate_function_checksum` (generate_cxx_ast.py:338): the canonical
signature string is
`name "(" type1 ":" name1 ", " type2 ":" name2 ... ")"`,
with parameters in declaration order, hashed via `digest64`. -/
def calculate_function_checksum (func_name : String)
    (parameters : List (String × String)) : Nat :=
  let signature :=
    func_name ++ "(" ++
      String.intercalate ", " (parameters.map (fun p => p.1 ++ ":" ++ p.2)) ++
    ")"
  digest64 signature

/-- `calculate_interface_checksum` (generate_cxx_ast.py:365): member
function checksums are sorted numerically, joined with commas inside
braces after the interface name, and hashed via `digest64`. -/
def calculate_interface_checksum (interface_name : String)
    (function_checksums : List Nat) : Nat :=
  let sortedChecksums := pySorted function_checksums
  let signature :=
    interface_name ++ "\x7b" ++
      String.intercalate "," (sortedChecksums.map (fun c => toString c)) ++
    "\x7d"
  digest64 signature

/-- `calculate_name_hash` (generate_cxx_ast.py:387). -/
def calculate_name_hash (name : String) : Nat :=
  digest64 name

/-- Cross-check with CPython: the checksum of the documented example
signature `DoSomething1(int:count, bool:flag)`. -/
theorem checksum_cross_check :
    calculate_function_checksum "DoSomething1" [("int", "count"), ("bool", "flag")] =
      10631561826035702372 := by
  rfl

/-- Cross-check with CPython: the interface signature `ISample{12,5,999}`
(checksums sorted numerically before joining). -/
theorem interface_checksum_cross_check :
    calculate_interface_checksum "ISample" [999, 12, 5] = 5160065636216852699 := by
  rfl

/-- Cross-check with CPython: the name hash of the docstring's example
fully qualified name. -/
theorem name_hash_cross_check :
    calculate_name_hash "::Arieo::Interface::Sample::ISample" =
      9421138728380728032 := by
  rfl

/-! ### The name-form translator

Pure string transforms from generate_cxx_ast.py, modelled on `List Char`.
Python's `str.replace`, `str.split`, `str.capitalize`, `str.lower`,
`str.upper` are reproduced exactly for the ASCII identifiers in scope. -/

/-- `s.replace(a, rep)` for a single-character pattern. -/
def replaceChar (a : Char) (rep : List Char) (l : List Char) : List Char :=
  (l.map (fun c => if c = a then rep else [c])).flatten

/-- `s.replace("::", rep)`: leftmost-first, non-overlapping. -/
def replaceColonColonWith (rep : List Char) : List Char → List Char
  | [] => []
  | ':' :: ':' :: rest => rep ++ replaceColonColonWith rep rest
  | c :: rest => c :: replaceColonColonWith rep rest

/-- `s.split(sep)` for a single-character separator: Python keeps empty
parts and `"".split(sep) == [""]`. -/
def splitOnChar (sep : Char) : List Char → List (List Char)
  | [] => [[]]
  | c :: rest =>
    match splitOnChar sep rest with
    | [] => [[c]]
    | p :: ps => if c = sep then [] :: p :: ps else (c :: p) :: ps

/-- `s.split("::")`. -/
def splitOnColonColon : List Char → List (List Char)
  | [] => [[]]
  | ':' :: ':' :: rest => [] :: splitOnColonColon rest
  | c :: rest =>
    match splitOnColonColon rest with
    | [] => [[c]]
    | p :: ps => (c :: p) :: ps

/-- `part.capitalize()`: first character upper-cased, the rest
lower-cased. -/
def pyCapitalize : List Char → List Char
  | [] => []
  | c :: rest => c.toUpper :: rest.map Char.toLower

def startsWithColonColon : List Char → Bool
  | ':' :: ':' :: _ => true
  | _ => false

def startsWithCrateColonColon : List Char → Bool
  | 'c' :: 'r' :: 'a' :: 't' :: 'e' :: ':' :: ':' :: _ => true
  | _ => false

/-- `TYPE_CONVERSION_TABLE` (generate_cxx_ast.py:20), as
(native, csharp, rust) rows. -/
def TYPE_CONVERSION_TABLE : List (String × String × String) :=
  [("std::int8_t", "sbyte", "i8"),
   ("std::uint8_t", "byte", "u8"),
   ("std::int16_t", "Int16", "i16"),
   ("std::uint16_t", "UInt16", "u16"),
   ("std::int32_t", "Int32", "i32"),
   ("std::uint32_t", "UInt32", "u32"),
   ("std::int64_t", "Int64", "i64"),
   ("std::uint64_t", "UInt64", "u64"),
   ("int", "int", "i32"),
   ("unsigned int", "uint", "u32"),
   ("long", "long", "i64"),
   ("unsigned long", "ulong", "u64"),
   ("long long", "long", "i64"),
   ("unsigned long long", "ulong", "u64"),
   ("short", "short", "i16"),
   ("unsigned short", "ushort", "u16"),
   ("char", "sbyte", "i8"),
   ("unsigned char", "byte", "u8"),
   ("float", "float", "f32"),
   ("double", "double", "f64"),
   ("bool", "bool", "bool"),
   ("size_t", "ulong", "usize"),
   ("std::size_t", "ulong", "usize"),
   ("void", "void", "()")]

/-- `convert_type_to_target_language` (generate_cxx_ast.py:57): table hit
translates for "csharp"/"rust" (any other target falls back to the native
spelling, as `dict.get(target, native)` does); a miss passes the native
type through unchanged. -/
def convert_type_to_target_language (native_type target_language : String) :
    String :=
  match TYPE_CONVERSION_TABLE.find? (fun e => e.1 == native_type) with
  | some e =>
    if target_language = "csharp" then e.2.1
    else if target_language = "rust" then e.2.2
    else native_type
  | none => native_type

/-- The loop body of `convert_function_name_to_wit_format`
(generate_cxx_ast.py:73): `result` is the accumulated output list;
underscores are skipped, a dash is emitted before an upper-case character
when `result` is non-empty, and every kept character is lower-cased. -/
def witFormatAux : List Char → List Char → List Char
  | [], result => result
  | ch :: rest, result =>
    if ch = '_' then witFormatAux rest result
    else if ch.isUpper && !result.isEmpty then
      witFormatAux rest (result ++ ['-', ch.toLower])
    else
      witFormatAux rest (result ++ [ch.toLower])

/-- `convert_function_name_to_wit_format` (generate_cxx_ast.py:73). -/
def convert_function_name_to_wit_format (name : String) : String :=
  ⟨witFormatAux name.data []⟩

/-- `convert_wit_to_cxx_namespace` (generate_cxx_ast.py:101):
`replace(':', '::').replace('/', '::')` then `replace('-', '_')`. -/
def convert_wit_to_cxx_namespace (wit_full_name : String) : String :=
  ⟨replaceChar '-' ['_']
    (replaceChar '/' [':', ':'] (replaceChar ':' [':', ':'] wit_full_name.data))⟩

/-- `convert_wit_to_cxx_function_name` (generate_cxx_ast.py:119):
split on dash, capitalize every part, join. -/
def convert_wit_to_cxx_function_name (wit_function_name : String) : String :=
  ⟨((splitOnChar '-' wit_function_name.data).map pyCapitalize).flatten⟩

/-- `convert_wit_to_cxx_script_full_interface_name`
(generate_cxx_ast.py:137): like `convert_wit_to_cxx_namespace`, with a
`::` prefix added when not already present. -/
def convert_wit_to_cxx_script_full_interface_name (w : String) : String :=
  let result := replaceChar '-' ['_']
    (replaceChar '/' [':', ':'] (replaceChar ':' [':', ':'] w.data))
  if startsWithColonColon result then ⟨result⟩ else ⟨':' :: ':' :: result⟩

/-- `convert_wit_to_csharp_full_interface_name` (generate_cxx_ast.py:158). -/
def convert_wit_to_csharp_full_interface_name (w : String) : String :=
  let parts := splitOnChar '/' w.data
  if parts.length != 2 then w
  else
    let namespacePart := replaceChar ':' ['.'] (parts.getD 0 [])
    let interfacePart := parts.getD 1 []
    let interfaceName :=
      ((splitOnChar '-' interfacePart).map pyCapitalize).flatten ++
        "Interop".data
    ⟨"ApplicationWorld.wit.imports.".data ++ namespacePart ++ ['.'] ++
      interfaceName⟩

/-- `convert_wit_to_rust_full_interface_name` (generate_cxx_ast.py:189). -/
def convert_wit_to_rust_full_interface_name (w : String) : String :=
  let result := replaceChar '-' ['_']
    (replaceChar '/' [':', ':'] (replaceChar ':' [':', ':'] w.data))
  if startsWithCrateColonColon result then ⟨result⟩
  else ⟨"crate::".data ++ result⟩

/-- `convert_wit_to_rust_function_name` (generate_cxx_ast.py:210):
dashes to underscores, lower-cased. -/
def convert_wit_to_rust_function_name (wit_function_name : String) : String :=
  ⟨(replaceChar '-' ['_'] wit_function_name.data).map Char.toLower⟩

/-- The regex substitution `re.sub(r'([a-z])([A-Z])', r'\1_\2', name)` of
`convert_method_name_to_rust_snake_case`: an underscore is inserted at
every lowercase→uppercase boundary.  (Because a matched right character is
upper-case, it can never start the next match, so the regex's resume-after-
match behaviour coincides with this sliding window.) -/
def insertSnakeUnderscores : List Char → List Char
  | a :: b :: rest =>
    if a.isLower && b.isUpper then a :: '_' :: insertSnakeUnderscores (b :: rest)
    else a :: insertSnakeUnderscores (b :: rest)
  | l => l

/-- `convert_method_name_to_rust_snake_case` (generate_cxx_ast.py:282). -/
def convert_method_name_to_rust_snake_case (method_name : String) : String :=
  ⟨(insertSnakeUnderscores method_name.data).map Char.toLower⟩

/-- The loop body of `convert_interface_name_to_wit_format`
(generate_cxx_ast.py:301): `result` starts as `package_name + "/"`; the
dash is suppressed right after the `/` separator (`result[-1] != '/'`). -/
def ifaceWitAux : List Char → List Char → List Char
  | [], result => result
  | ch :: rest, result =>
    if ch = '_' then ifaceWitAux rest result
    else if ch.isUpper && !result.isEmpty && !(result.getLast? == some '/') then
      ifaceWitAux rest (result ++ ['-', ch.toLower])
    else
      ifaceWitAux rest (result ++ [ch.toLower])

/-- `convert_interface_name_to_wit_format` (generate_cxx_ast.py:301). -/
def convert_interface_name_to_wit_format (package_name interface_name : String) :
    String :=
  ⟨ifaceWitAux interface_name.data (package_name.data ++ ['/'])⟩

/-- Docstring example: `("arieo:sample", "ISample")` gives
`"arieo:sample/i-sample"`. -/
theorem interface_wit_format_example :
    convert_interface_name_to_wit_format "arieo:sample" "ISample" =
      "arieo:sample/i-sample" := by
  rfl

/-- Docstring example: `"arieo:sample/i-sample"` gives
`"ApplicationWorld.wit.imports.arieo.sample.ISampleInterop"`. -/
theorem csharp_interface_name_example :
    convert_wit_to_csharp_full_interface_name "arieo:sample/i-sample" =
      "ApplicationWorld.wit.imports.arieo.sample.ISampleInterop" := by
  rfl

/-- Docstring example: `"arieo:sample/i-sample"` gives
`"::arieo::sample::i_sample"`. -/
theorem cxx_script_interface_name_example :
    convert_wit_to_cxx_script_full_interface_name "arieo:sample/i-sample" =
      "::arieo::sample::i_sample" := by
  rfl

/-- Docstring example: `"doSomthing_1"` gives `"do_somthing_1"`. -/
theorem rust_snake_case_example :
    convert_method_name_to_rust_snake_case "doSomthing_1" = "do_somthing_1" := by
  rfl

/-! ### Kebab-case: specification-side algorithm and character facts -/

/-- The ASCII alphanumeric characters — the alphabet of a valid C++
identifier without underscores, as used by the naming claims. -/
def asciiAlphanum : List Char :=
  "ABCDEFGHIJKLMNOPQRSTUVWXYZabcdefghijklmnopqrstuvwxyz0123456789".data

/-- The kebab-case conversion exactly as the specification words it:
iterate left to right, drop underscores, emit a dash before an upper-case
character exactly when the output accumulated so far is non-empty
(tracked by `emitted`), and emit every kept character lower-cased. -/
def kebabSpecAux (emitted : Bool) : List Char → List Char
  | [] => []
  | c :: rest =>
    if c = '_' then kebabSpecAux emitted rest
    else if c.isUpper && emitted then
      '-' :: c.toLower :: kebabSpecAux true rest
    else
      c.toLower :: kebabSpecAux true rest

def kebabSpec (s : String) : String := ⟨kebabSpecAux false s.data⟩

theorem alnum_not_special : ∀ c ∈ asciiAlphanum, c ≠ '-' ∧ c ≠ '_' := by
  decide

theorem alnum_toLower_mem : ∀ c ∈ asciiAlphanum, c.toLower ∈ asciiAlphanum := by
  decide

theorem alnum_toLower_not_upper :
    ∀ c ∈ asciiAlphanum, c.toLower.isUpper = false := by
  decide

theorem alnum_toLower_not_special :
    ∀ c ∈ asciiAlphanum, c.toLower ≠ '-' ∧ c.toLower ≠ '_' := by
  decide

theorem alnum_toUpper_not_special :
    ∀ c ∈ asciiAlphanum, c.toUpper ≠ '-' ∧ c.toUpper ≠ '_' := by
  decide

theorem alnum_toUpper_toLower :
    ∀ c ∈ asciiAlphanum, c.toUpper.toLower = c.toLower := by
  decide

theorem alnum_toLower_toLower :
    ∀ c ∈ asciiAlphanum, c.toLower.toLower = c.toLower := by
  decide

theorem alnum_toLower_toUpper :
    ∀ c ∈ asciiAlphanum, c.toLower.toUpper = c.toUpper := by
  decide

/-- The Python loop (accumulator `result`) computes exactly the
specification's recursion: the accumulated output is non-empty iff a
character has been emitted. -/
theorem witFormatAux_eq_spec (l : List Char) :
    ∀ acc, witFormatAux l acc = acc ++ kebabSpecAux (!acc.isEmpty) l := by
  induction l with
  | nil => intro acc; simp [witFormatAux, kebabSpecAux]
  | cons c rest ih =>
    intro acc
    by_cases hu : c = '_'
    · simp [witFormatAux, kebabSpecAux, hu, ih]
    · cases acc with
      | nil =>
        cases hup : c.isUpper <;>
          simp [witFormatAux, kebabSpecAux, hu, hup, ih]
      | cons a as =>
        cases hup : c.isUpper <;>
          simp [witFormatAux, kebabSpecAux, hu, hup, ih]

theorem convert_function_name_eq_kebabSpec (s : String) :
    convert_function_name_to_wit_format s = kebabSpec s := by
  show String.mk (witFormatAux s.data []) = _
  rw [witFormatAux_eq_spec]
  rfl

/-- C4: kebab-case conversion. -/
theorem claim_C4 :
    (∀ s : String, convert_function_name_to_wit_format s = kebabSpec s) ∧
    convert_function_name_to_wit_format "DoSomething1" = "do-something1" ∧
    convert_function_name_to_wit_format "doSomething1" = "do-something1" ∧
    (∀ (c : Char) (rest : List Char), c ∈ asciiAlphanum → c.isUpper = true →
      (convert_function_name_to_wit_format ⟨c :: rest⟩).data.head? =
        some c.toLower ∧ c.toLower ≠ '-') := by
  refine ⟨convert_function_name_eq_kebabSpec, rfl, rfl, ?_⟩
  intro c rest hmem _
  refine ⟨?_, (alnum_toLower_not_special c hmem).1⟩
  show (String.mk (witFormatAux (c :: rest) [])).data.head? = some c.toLower
  rw [witFormatAux]
  have hne : ¬(c = '_') := (alnum_not_special c hmem).2
  simp only [if_neg hne, List.isEmpty_nil, Bool.not_true, Bool.and_false,
    Bool.false_eq_true, if_neg, ite_false]
  rw [witFormatAux_eq_spec]
  simp

/-- Witness for C4: the fourth conjunct applied at the concrete leading
character 'D'. -/
theorem claim_C4_witness :
    ('D' ∈ asciiAlphanum ∧ Char.isUpper 'D' = true) ∧
    ((convert_function_name_to_wit_format ⟨'D' :: "oSomething1".data⟩).data.head? =
        some ('D'.toLower) ∧ 'D'.toLower ≠ '-') :=
  ⟨⟨by decide, by decide⟩,
   claim_C4.2.2.2 'D' "oSomething1".data (by decide) (by decide)⟩

/-! ### The pascal/kebab round trip -/

theorem splitOnChar_of_not_mem (sep : Char) (l : List Char)
    (h : ∀ c ∈ l, c ≠ sep) : splitOnChar sep l = [l] := by
  induction l with
  | nil => rfl
  | cons c rest ih =>
    have hc : c ≠ sep := h c (by simp)
    rw [splitOnChar, ih (fun d hd => h d (by simp [hd]))]
    simp [hc]

/-- `convert_wit_to_cxx_function_name` on a dash-free string is just
Python's `capitalize`. -/
theorem pascal_of_no_dash (l : List Char) (h : ∀ c ∈ l, c ≠ '-') :
    convert_wit_to_cxx_function_name ⟨l⟩ = ⟨pyCapitalize l⟩ := by
  show String.mk (((splitOnChar '-' l).map pyCapitalize).flatten) = _
  rw [splitOnChar_of_not_mem _ _ h]
  simp

/-- Kebab conversion is the identity on a string of plain characters:
no underscores, nothing upper-case, already lower-case. -/
theorem kebabSpecAux_of_plain (m : List Char)
    (h : ∀ d ∈ m, d ≠ '_' ∧ d.isUpper = false ∧ d.toLower = d) :
    ∀ b, kebabSpecAux b m = m := by
  induction m with
  | nil => intro b; rfl
  | cons d rest ih =>
    intro b
    obtain ⟨h1, h2, h3⟩ := h d (by simp)
    rw [kebabSpecAux]
    simp [h1, h2, h3, ih (fun e he => h e (by simp [he]))]

/-- C5: for a valid PascalCase identifier (ASCII letters and digits, no
underscores or dashes), `pascal (kebab (pascal x)) = pascal x`, where
`pascal` is `convert_wit_to_cxx_function_name` and `kebab` is
`convert_function_name_to_wit_format`. -/
theorem claim_C5 (x : String) (h : ∀ c ∈ x.data, c ∈ asciiAlphanum) :
    convert_wit_to_cxx_function_name
      (convert_function_name_to_wit_format (convert_wit_to_cxx_function_name x)) =
    convert_wit_to_cxx_function_name x := by
  obtain ⟨l⟩ := x
  have h' : ∀ c ∈ l, c ∈ asciiAlphanum := h
  have hnd : ∀ c ∈ l, c ≠ '-' := fun c hc => (alnum_not_special c (h' c hc)).1
  rw [pascal_of_no_dash l hnd]
  cases l with
  | nil => rfl
  | cons c rest =>
    have hc : c ∈ asciiAlphanum := h' c (by simp)
    have hrest : ∀ d ∈ rest, d ∈ asciiAlphanum := fun d hd => h' d (by simp [hd])
    rw [convert_function_name_eq_kebabSpec]
    show convert_wit_to_cxx_function_name
        ⟨kebabSpecAux false (c.toUpper :: rest.map Char.toLower)⟩ =
      String.mk (pyCapitalize (c :: rest))
    rw [kebabSpecAux]
    have h1 : ¬(c.toUpper = '_') := (alnum_toUpper_not_special c hc).2
    rw [if_neg h1, if_neg (by simp : ¬((c.toUpper.isUpper && false) = true))]
    rw [kebabSpecAux_of_plain (rest.map Char.toLower)
      (fun d hd => by
        obtain ⟨e, he, rfl⟩ := List.mem_map.mp hd
        exact ⟨(alnum_toLower_not_special e (hrest e he)).2,
          alnum_toLower_not_upper e (hrest e he),
          alnum_toLower_toLower e (hrest e he)⟩) true]
    rw [alnum_toUpper_toLower c hc]
    rw [pascal_of_no_dash (c.toLower :: rest.map Char.toLower)
      (fun d hd => by
        rcases List.mem_cons.mp hd with rfl | hd
        · exact (alnum_toLower_not_special c hc).1
        · obtain ⟨e, he, rfl⟩ := List.mem_map.mp hd
          exact (alnum_toLower_not_special e (hrest e he)).1)]
    apply congrArg String.mk
    show c.toLower.toUpper :: (rest.map Char.toLower).map Char.toLower =
      c.toUpper :: rest.map Char.toLower
    rw [alnum_toLower_toUpper c hc, List.map_map]
    refine congrArg _ (List.map_congr_left fun e he => ?_)
    exact alnum_toLower_toLower e (hrest e he)

/-- Witness for C5: the round trip at the concrete PascalCase identifier
`"DoSomething1"`. -/
theorem claim_C5_witness :
    (∀ c ∈ ("DoSomething1" : String).data, c ∈ asciiAlphanum) ∧
    convert_wit_to_cxx_function_name
      (convert_function_name_to_wit_format
        (convert_wit_to_cxx_function_name "DoSomething1")) =
    convert_wit_to_cxx_function_name "DoSomething1" :=
  ⟨by decide, claim_C5 "DoSomething1" (by decide)⟩

/-! ### Method parameter extraction and the function-checksum pass -/

/-- The string content of a JSON value, when it is a string. -/
def strValOf : JValue → Option String
  | .str s => some s
  | _ => none

/-- The parameter type of a `ParmVarDecl` child:
`item["type"].get("qualType", "")` guarded by
`"type" in item and isinstance(item["type"], dict)`.  (A present
non-string `qualType` would be rendered by Python's f-string; clang never
emits one, and it is outside the modelled domain.) -/
def paramTypeOf (cfs : List (String × JValue)) : String :=
  match lookupField cfs "type" with
  | some (.obj tfs) =>
    match lookupField tfs "qualType" with
    | some (.str s) => s
    | _ => ""
  | _ => ""

/-- One entry of the parameter loop shared by
`add_function_checksums_recursive` (generate_cxx_ast.py:420) and the
walker (generate_cxx_ast.py:892): dict children of kind `ParmVarDecl`
contribute `(param_type, param_name)`. -/
def paramOfChild (v : JValue) : Option (String × String) :=
  match v with
  | .obj cfs =>
    if hasKind (.obj cfs) "ParmVarDecl" then
      some (paramTypeOf cfs, getStrD (.obj cfs) "name" "")
    else none
  | _ => none

/-- The `(type, name)` pairs collected from a method node's direct
`inner` children. -/
def methodParams (fs : List (String × JValue)) : List (String × String) :=
  match lookupField fs "inner" with
  | some (.arr items) => items.filterMap paramOfChild
  | _ => []

def methodNameOf (m : JValue) : String := getStrD m "name" ""

def methodParamsOf (m : JValue) : List (String × String) :=
  match m with
  | .obj fs => methodParams fs
  | _ => []

mutual
/-- `add_function_checksums_recursive` (generate_cxx_ast.py:402): every
dict node of kind `CXXMethodDecl` — wherever it sits — receives
`function_checksum = calculate_function_checksum(name, params)` computed
from its own fields; all dict values and list items are processed
recursively.  (Python assigns the field and then recurses over
`node.values()`; since the assigned value is a number, on which the
recursion is the identity, assigning after the recursion is
equivalent.) -/
def add_function_checksums_recursive : JValue → JValue
  | .obj fs =>
    let fs' := addFuncChecksumsFields fs
    if hasKind (.obj fs) "CXXMethodDecl" then
      .obj (setField fs' "function_checksum"
        (.num (calculate_function_checksum (getStrD (.obj fs) "name" "")
          (methodParams fs))))
    else .obj fs'
  | .arr es => .arr (addFuncChecksumsItems es)
  | v => v
def addFuncChecksumsFields :
    List (String × JValue) → List (String × JValue)
  | [] => []
  | (k, v) :: tl => (k, add_function_checksums_recursive v) :: addFuncChecksumsFields tl
def addFuncChecksumsItems : List JValue → List JValue
  | [] => []
  | v :: tl => add_function_checksums_recursive v :: addFuncChecksumsItems tl
end

/-- Structural occurrence of a subtree in a JSON tree ("where a node
appears in the tree"). -/
inductive Occurs : JValue → JValue → Prop where
  | refl (v : JValue) : Occurs v v
  | inObj {s v : JValue} {k : String} {fs : List (String × JValue)} :
      (k, v) ∈ fs → Occurs s v → Occurs s (.obj fs)
  | inArr {s v : JValue} {es : List JValue} :
      v ∈ es → Occurs s v → Occurs s (.arr es)

theorem strValOf_addFuncChecksums (v : JValue) :
    strValOf (add_function_checksums_recursive v) = strValOf v := by
  cases v with
  | obj fs =>
    simp only [add_function_checksums_recursive]
    split <;> rfl
  | arr es => rfl
  | null => rfl
  | bool b => rfl
  | num n => rfl
  | str s => rfl

theorem lookupField_addFuncChecksumsFields (fs : List (String × JValue))
    (k : String) :
    lookupField (addFuncChecksumsFields fs) k =
      (lookupField fs k).map add_function_checksums_recursive := by
  induction fs with
  | nil => simp [addFuncChecksumsFields, lookupField]
  | cons hd tl ih =>
    obtain ⟨k', v⟩ := hd
    by_cases h : k' = k <;>
      simp [addFuncChecksumsFields, lookupField, h, ih]

theorem mem_addFuncChecksumsFields {fs : List (String × JValue)}
    {k : String} {v' : JValue} (h : (k, v') ∈ addFuncChecksumsFields fs) :
    ∃ v0, (k, v0) ∈ fs ∧ v' = add_function_checksums_recursive v0 := by
  induction fs with
  | nil => simp [addFuncChecksumsFields] at h
  | cons hd tl ih =>
    obtain ⟨k'', w⟩ := hd
    rcases List.mem_cons.mp h with h2 | h2
    · have hk : k = k'' := congrArg Prod.fst h2
      have hv : v' = add_function_checksums_recursive w := congrArg Prod.snd h2
      exact ⟨w, by simp [hk], hv⟩
    · obtain ⟨v0, hm, he⟩ := ih h2
      exact ⟨v0, List.mem_cons_of_mem _ hm, he⟩

theorem mem_addFuncChecksumsItems {es : List JValue} {v' : JValue}
    (h : v' ∈ addFuncChecksumsItems es) :
    ∃ v0 ∈ es, v' = add_function_checksums_recursive v0 := by
  induction es with
  | nil => simp [addFuncChecksumsItems] at h
  | cons hd tl ih =>
    rcases List.mem_cons.mp h with h2 | h2
    · exact ⟨hd, by simp, h2⟩
    · obtain ⟨v0, hm, he⟩ := ih h2
      exact ⟨v0, List.mem_cons_of_mem _ hm, he⟩

/-- Reading any field other than `function_checksum` from a processed
dict gives the processed original value. -/
theorem getField_addFuncChecksums_obj (fs : List (String × JValue))
    (k : String) (hk : k ≠ "function_checksum") :
    getField (add_function_checksums_recursive (.obj fs)) k =
      (lookupField fs k).map add_function_checksums_recursive := by
  rw [add_function_checksums_recursive]
  split <;>
    simp [getField, lookupField_setField_ne _ _ _ _ hk,
      lookupField_addFuncChecksumsFields]

theorem kindOf_eq_bind (node : JValue) :
    kindOf node = (getField node "kind").bind strValOf := by
  cases h : getField node "kind" with
  | none => simp [kindOf, h]
  | some v => cases v <;> simp [kindOf, h, strValOf]

theorem getStrD_eq_bind (node : JValue) (key d : String) :
    getStrD node key d = ((getField node key).bind strValOf).getD d := by
  cases h : getField node key with
  | none => simp [getStrD, h]
  | some v => cases v <;> simp [getStrD, h, strValOf]

theorem kindOf_addFuncChecksums_obj (fs : List (String × JValue)) :
    kindOf (add_function_checksums_recursive (.obj fs)) = kindOf (.obj fs) := by
  rw [kindOf_eq_bind, kindOf_eq_bind,
    getField_addFuncChecksums_obj fs "kind" (by decide)]
  show ((lookupField fs "kind").map _).bind strValOf =
    (lookupField fs "kind").bind strValOf
  cases lookupField fs "kind" with
  | none => rfl
  | some v => simp [strValOf_addFuncChecksums]

theorem hasKind_addFuncChecksums_obj (fs : List (String × JValue)) (k : String) :
    hasKind (add_function_checksums_recursive (.obj fs)) k =
      hasKind (.obj fs) k := by
  simp [hasKind, kindOf_addFuncChecksums_obj]

theorem getStrD_addFuncChecksumsFields (cfs : List (String × JValue))
    (key d : String) (hk : key ≠ "function_checksum") :
    getStrD (add_function_checksums_recursive (.obj cfs)) key d =
      getStrD (.obj cfs) key d := by
  rw [getStrD_eq_bind, getStrD_eq_bind, getField_addFuncChecksums_obj cfs key hk]
  show (((lookupField cfs key).map _).bind strValOf).getD d =
    ((lookupField cfs key).bind strValOf).getD d
  cases lookupField cfs key with
  | none => rfl
  | some v => simp [strValOf_addFuncChecksums]

theorem methodNameOf_addFuncChecksums_obj (fs : List (String × JValue)) :
    methodNameOf (add_function_checksums_recursive (.obj fs)) =
      methodNameOf (.obj fs) :=
  getStrD_addFuncChecksumsFields fs "name" "" (by decide)

theorem optMapSome (f : JValue → JValue) (v : JValue) :
    Option.map f (some v) = some (f v) := rfl

theorem addFuncChecksums_obj_shape (fs : List (String × JValue)) :
    ∃ gfs, add_function_checksums_recursive (.obj fs) = .obj gfs := by
  simp only [add_function_checksums_recursive]
  split
  · exact ⟨_, rfl⟩
  · exact ⟨_, rfl⟩

theorem paramTypeOf_addFuncChecksums (cfs gfs : List (String × JValue))
    (hF : add_function_checksums_recursive (.obj cfs) = .obj gfs) :
    paramTypeOf gfs = paramTypeOf cfs := by
  have hty : lookupField gfs "type" =
      (lookupField cfs "type").map add_function_checksums_recursive := by
    have h0 := getField_addFuncChecksums_obj cfs "type" (by decide)
    rw [hF] at h0
    exact h0
  unfold paramTypeOf
  rw [hty]
  cases hx : lookupField cfs "type" with
  | none => rfl
  | some v =>
    cases v with
    | obj tfs =>
      obtain ⟨tgs, hT⟩ := addFuncChecksums_obj_shape tfs
      rw [optMapSome, hT]
      have hq : lookupField tgs "qualType" =
          (lookupField tfs "qualType").map add_function_checksums_recursive := by
        have h1 := getField_addFuncChecksums_obj tfs "qualType" (by decide)
        rw [hT] at h1
        exact h1
      simp only [hq]
      cases hqq : lookupField tfs "qualType" with
      | none => rfl
      | some q =>
        cases q with
        | obj o =>
          obtain ⟨g, hg⟩ := addFuncChecksums_obj_shape o
          rw [optMapSome, hg]
        | null => rfl
        | bool b => rfl
        | num n => rfl
        | str s => rfl
        | arr es => rfl
    | null => rfl
    | bool b => rfl
    | num n => rfl
    | str s => rfl
    | arr es => rfl

theorem paramOfChild_addFuncChecksums (child : JValue) :
    paramOfChild (add_function_checksums_recursive child) = paramOfChild child := by
  cases child with
  | obj cfs =>
    have hkind := hasKind_addFuncChecksums_obj cfs "ParmVarDecl"
    by_cases hp : hasKind (.obj cfs) "ParmVarDecl" = true
    · have hgoal : paramOfChild (.obj cfs) =
        some (paramTypeOf cfs, getStrD (.obj cfs) "name" "") := by
        simp [paramOfChild, hp]
      rw [hgoal]
      cases hF : add_function_checksums_recursive (.obj cfs) with
      | obj gfs =>
        have hk2 : hasKind (JValue.obj gfs) "ParmVarDecl" = true := by
          rw [← hF, hkind]; exact hp
        have htype : paramTypeOf gfs = paramTypeOf cfs :=
          paramTypeOf_addFuncChecksums cfs gfs hF
        have hname : getStrD (JValue.obj gfs) "name" "" =
            getStrD (.obj cfs) "name" "" := by
          rw [← hF]
          exact getStrD_addFuncChecksumsFields cfs "name" "" (by decide)
        simp [paramOfChild, hk2, htype, hname]
      | null => simp [add_function_checksums_recursive] at hF; split at hF <;> simp at hF
      | bool b => simp only [add_function_checksums_recursive] at hF; split at hF <;> simp at hF
      | num n => simp only [add_function_checksums_recursive] at hF; split at hF <;> simp at hF
      | str s => simp only [add_function_checksums_recursive] at hF; split at hF <;> simp at hF
      | arr es => simp only [add_function_checksums_recursive] at hF; split at hF <;> simp at hF
    · have hp' : hasKind (.obj cfs) "ParmVarDecl" = false := by
        simpa using hp
      have h1 : paramOfChild (.obj cfs) = none := by simp [paramOfChild, hp']
      have h2 : paramOfChild (add_function_checksums_recursive (.obj cfs)) = none := by
        cases hF : add_function_checksums_recursive (.obj cfs) with
        | obj gfs =>
          have : hasKind (JValue.obj gfs) "ParmVarDecl" = false := by
            rw [← hF, hkind]; exact hp'
          simp [paramOfChild, this]
        | null => rfl
        | bool b => rfl
        | num n => rfl
        | str s => rfl
        | arr es => rfl
      rw [h1, h2]
  | null => rfl
  | bool b => rfl
  | num n => rfl
  | str s => rfl
  | arr es => rfl

theorem addFuncChecksumsItems_eq_map (es : List JValue) :
    addFuncChecksumsItems es = es.map add_function_checksums_recursive := by
  induction es with
  | nil => rfl
  | cons hd tl ih => simp [addFuncChecksumsItems, ih]

theorem methodParamsOf_addFuncChecksums_obj (fs : List (String × JValue)) :
    methodParamsOf (add_function_checksums_recursive (.obj fs)) =
      methodParamsOf (.obj fs) := by
  have hfield := getField_addFuncChecksums_obj fs "inner" (by decide)
  cases hF : add_function_checksums_recursive (.obj fs) with
  | obj gfs =>
    show methodParams gfs = methodParams fs
    unfold methodParams
    have : lookupField gfs "inner" =
        (lookupField fs "inner").map add_function_checksums_recursive := by
      rw [← hfield, hF]; rfl
    rw [this]
    cases lookupField fs "inner" with
    | none => rfl
    | some v =>
      cases v with
      | arr items =>
        show (addFuncChecksumsItems items).filterMap paramOfChild = _
        rw [addFuncChecksumsItems_eq_map, List.filterMap_map]
        exact List.filterMap_congr
          (fun child _ => paramOfChild_addFuncChecksums child)
      | null => rfl
      | bool b => rfl
      | num n => rfl
      | str s => rfl
      | obj o =>
        obtain ⟨g, hg⟩ := addFuncChecksums_obj_shape o
        rw [optMapSome, hg]
  | null => simp only [add_function_checksums_recursive] at hF; split at hF <;> simp at hF
  | bool b => simp only [add_function_checksums_recursive] at hF; split at hF <;> simp at hF
  | num n => simp only [add_function_checksums_recursive] at hF; split at hF <;> simp at hF
  | str s => simp only [add_function_checksums_recursive] at hF; split at hF <;> simp at hF
  | arr es => simp only [add_function_checksums_recursive] at hF; split at hF <;> simp at hF

/-- Soundness of the function-checksum pass: every `CXXMethodDecl` dict
occurring anywhere in the output carries exactly the checksum computed
from its own name and ordered `(type, name)` parameter pairs. -/
theorem addFuncChecksums_sound {m w : JValue} (hocc : Occurs m w) :
    ∀ t, w = add_function_checksums_recursive t →
    hasKind m "CXXMethodDecl" = true →
    getField m "function_checksum" =
      some (.num (calculate_function_checksum (methodNameOf m)
        (methodParamsOf m))) := by
  induction hocc with
  | refl =>
    intro t ht hk
    subst ht
    cases t with
    | obj fs =>
      have hm : hasKind (JValue.obj fs) "CXXMethodDecl" = true := by
        rw [← hasKind_addFuncChecksums_obj fs "CXXMethodDecl"]
        exact hk
      rw [methodNameOf_addFuncChecksums_obj fs,
        methodParamsOf_addFuncChecksums_obj fs]
      simp only [add_function_checksums_recursive, hm, if_true]
      show lookupField (setField (addFuncChecksumsFields fs) "function_checksum"
          (.num _)) "function_checksum" = _
      rw [lookupField_setField_self]
      rfl
    | null => simp [hasKind, kindOf, getField, add_function_checksums_recursive] at hk
    | bool b => simp [hasKind, kindOf, getField, add_function_checksums_recursive] at hk
    | num n => simp [hasKind, kindOf, getField, add_function_checksums_recursive] at hk
    | str s => simp [hasKind, kindOf, getField, add_function_checksums_recursive] at hk
    | arr es => simp [hasKind, kindOf, getField, add_function_checksums_recursive] at hk
  | inObj hmem hsub ih =>
    intro t ht hk
    cases t with
    | obj fs0 =>
      have hshape := addFuncChecksums_obj_shape fs0
      obtain ⟨gfs, hg⟩ := hshape
      rw [hg] at ht
      injection ht with ht
      subst ht
      -- the container's fields are either the freshly assigned checksum
      -- number or processed original values
      have hmem' := hmem
      revert hmem'
      simp only [add_function_checksums_recursive] at hg
      split at hg
      · injection hg with hg
        subst hg
        intro hmem'
        rcases mem_setField hmem' with hv | hv
        · subst hv
          cases hsub with
          | refl => simp [hasKind, kindOf, getField] at hk
        · obtain ⟨v0, _, hv0⟩ := mem_addFuncChecksumsFields hv
          exact ih v0 hv0 hk
      · injection hg with hg
        subst hg
        intro hmem'
        obtain ⟨v0, _, hv0⟩ := mem_addFuncChecksumsFields hmem'
        exact ih v0 hv0 hk
    | null => simp [add_function_checksums_recursive] at ht
    | bool b => simp [add_function_checksums_recursive] at ht
    | num n => simp [add_function_checksums_recursive] at ht
    | str s => simp [add_function_checksums_recursive] at ht
    | arr es => simp [add_function_checksums_recursive] at ht
  | inArr hmem hsub ih =>
    intro t ht hk
    cases t with
    | arr es0 =>
      simp only [add_function_checksums_recursive] at ht
      injection ht with ht
      subst ht
      obtain ⟨v0, _, hv0⟩ := mem_addFuncChecksumsItems hmem
      exact ih v0 hv0 hk
    | obj fs0 =>
      obtain ⟨gfs, hg⟩ := addFuncChecksums_obj_shape fs0
      rw [hg] at ht
      exact absurd ht (by simp)
    | null => simp [add_function_checksums_recursive] at ht
    | bool b => simp [add_function_checksums_recursive] at ht
    | num n => simp [add_function_checksums_recursive] at ht
    | str s => simp [add_function_checksums_recursive] at ht

/-- C1: the function checksum depends on exactly the method's name string
and its ordered (type, name) parameter pairs: two `CXXMethodDecl` nodes
agreeing on those — wherever they occur in their trees, and whatever
their return types — receive the same 64-bit value from
`add_function_checksums_recursive`, namely `calculate_function_checksum`
of that data. -/
theorem claim_C1 (t1 t2 m1 m2 : JValue)
    (h1 : Occurs m1 (add_function_checksums_recursive t1))
    (h2 : Occurs m2 (add_function_checksums_recursive t2))
    (hk1 : hasKind m1 "CXXMethodDecl" = true)
    (hk2 : hasKind m2 "CXXMethodDecl" = true)
    (hname : methodNameOf m1 = methodNameOf m2)
    (hparams : methodParamsOf m1 = methodParamsOf m2) :
    ∃ c : Nat,
      getField m1 "function_checksum" = some (.num c) ∧
      getField m2 "function_checksum" = some (.num c) ∧
      c = calculate_function_checksum (methodNameOf m1) (methodParamsOf m1) := by
  refine ⟨calculate_function_checksum (methodNameOf m1) (methodParamsOf m1),
    addFuncChecksums_sound h1 t1 rfl hk1, ?_, rfl⟩
  rw [hname, hparams]
  exact addFuncChecksums_sound h2 t2 rfl hk2

/-- A concrete `ParmVarDecl` node. -/
def mkParm (ty nm : String) : JValue :=
  .obj [("kind", .str "ParmVarDecl"), ("name", .str nm),
        ("type", .obj [("qualType", .str ty)])]

/-- Concrete method: name `DoSomething1`, params `(int count, bool flag)`,
return type `void`. -/
def c1Method1 : JValue :=
  .obj [("kind", .str "CXXMethodDecl"), ("name", .str "DoSomething1"),
        ("type", .obj [("qualType", .str "void (int, bool)")]),
        ("inner", .arr [mkParm "int" "count", mkParm "bool" "flag"])]

/-- Same name and parameter pairs, but a different return type. -/
def c1Method2 : JValue :=
  .obj [("kind", .str "CXXMethodDecl"), ("name", .str "DoSomething1"),
        ("type", .obj [("qualType", .str "int (int, bool)")]),
        ("inner", .arr [mkParm "int" "count", mkParm "bool" "flag"])]

def c1Tree1 : JValue :=
  .obj [("kind", .str "TranslationUnitDecl"), ("inner", .arr [c1Method1])]

/-- The second method sits at a different position: nested inside a
namespace node. -/
def c1Tree2 : JValue :=
  .obj [("inner", .arr [.obj [("kind", .str "NamespaceDecl"),
    ("inner", .arr [c1Method2])]])]

theorem c1Occurs1 : Occurs (add_function_checksums_recursive c1Method1)
    (add_function_checksums_recursive c1Tree1) := by
  show Occurs _ (.obj [("kind", .str "TranslationUnitDecl"),
    ("inner", .arr [add_function_checksums_recursive c1Method1])])
  refine .inObj (List.mem_cons_of_mem _ (List.mem_cons_self _ _)) ?_
  exact .inArr (List.mem_cons_self _ _) (.refl _)

theorem c1Occurs2 : Occurs (add_function_checksums_recursive c1Method2)
    (add_function_checksums_recursive c1Tree2) := by
  show Occurs _ (.obj [("inner", .arr [.obj [("kind", .str "NamespaceDecl"),
    ("inner", .arr [add_function_checksums_recursive c1Method2])]])])
  refine .inObj (List.mem_cons_self _ _) ?_
  refine .inArr (List.mem_cons_self _ _) ?_
  refine .inObj (List.mem_cons_of_mem _ (List.mem_cons_self _ _)) ?_
  exact .inArr (List.mem_cons_self _ _) (.refl _)

/-- Witness for C1: the two concrete methods above — same name, same
ordered parameter pairs, different return types, different tree
positions — carry the same checksum. -/
theorem claim_C1_witness :
    (hasKind (add_function_checksums_recursive c1Method1) "CXXMethodDecl" = true) ∧
    (methodNameOf (add_function_checksums_recursive c1Method1) =
      methodNameOf (add_function_checksums_recursive c1Method2)) ∧
    (∃ c : Nat,
      getField (add_function_checksums_recursive c1Method1)
        "function_checksum" = some (.num c) ∧
      getField (add_function_checksums_recursive c1Method2)
        "function_checksum" = some (.num c) ∧
      c = calculate_function_checksum
            (methodNameOf (add_function_checksums_recursive c1Method1))
            (methodParamsOf (add_function_checksums_recursive c1Method1))) :=
  ⟨rfl, rfl,
   claim_C1 c1Tree1 c1Tree2 _ _ c1Occurs1 c1Occurs2 rfl rfl rfl rfl⟩

/-! ### The interface-checksum pass -/

/-- Numeric content of a JSON value (checksums are numbers; a non-numeric
truthy `function_checksum` would make Python's `sorted` raise a
`TypeError` and is outside the modelled domain). -/
def jnumOf : JValue → Nat
  | .num n => n
  | _ => 0

/-- The collection step of `add_interface_checksums_recursive`
(generate_cxx_ast.py:933): a direct dict child of kind `CXXMethodDecl`
contributes its `function_checksum` value exactly when that value is
truthy (`if func_checksum:`), so an absent or zero checksum is
skipped. -/
def checksumOfChild (v : JValue) : Option Nat :=
  match v with
  | .obj cfs =>
    if hasKind (.obj cfs) "CXXMethodDecl" then
      match lookupField cfs "function_checksum" with
      | some w => if jTruthy w then some (jnumOf w) else none
      | none => none
    else none
  | _ => none

/-- The checksums collected from a record node's direct `inner`
children. -/
def collectFunctionChecksums (fs : List (String × JValue)) : List Nat :=
  match lookupField fs "inner" with
  | some (.arr items) => items.filterMap checksumOfChild
  | _ => []

mutual
/-- `add_interface_checksums_recursive` (generate_cxx_ast.py:915 — the
second definition of this name in the file; it shadows the earlier one at
line 443 and is the one `post_process_ast_json` calls): every
`CXXRecordDecl` with a truthy name collects the truthy
`function_checksum` values of its direct `CXXMethodDecl` children and
stores `calculate_interface_checksum(name, checksums)`.  (Python assigns
the field and then recurses over `node.values()`; the assigned value is
a number, on which the recursion is the identity, so assigning after the
recursion is equivalent.  A truthy non-string `name` would be rendered
by Python's f-string; clang never produces one and it is outside the
modelled domain.) -/
def add_interface_checksums_recursive : JValue → JValue
  | .obj fs =>
    let fs' := addIfaceChecksumsFields fs
    if hasKind (.obj fs) "CXXRecordDecl" then
      match getTruthyStr (.obj fs) "name" with
      | some interface_name =>
        .obj (setField fs' "interface_checksum"
          (.num (calculate_interface_checksum interface_name
            (collectFunctionChecksums fs))))
      | none => .obj fs'
    else .obj fs'
  | .arr es => .arr (addIfaceChecksumsItems es)
  | v => v
def addIfaceChecksumsFields :
    List (String × JValue) → List (String × JValue)
  | [] => []
  | (k, v) :: tl =>
    (k, add_interface_checksums_recursive v) :: addIfaceChecksumsFields tl
def addIfaceChecksumsItems : List JValue → List JValue
  | [] => []
  | v :: tl => add_interface_checksums_recursive v :: addIfaceChecksumsItems tl
end

/-- Sorting is invariant under permutation: Python's `sorted` returns the
unique `≤`-sorted rearrangement. -/
theorem pySorted_perm_eq {l1 l2 : List Nat} (h : l1.Perm l2) :
    pySorted l1 = pySorted l2 :=
  List.eq_of_perm_of_sorted
    (((List.perm_insertionSort (· ≤ ·) l1).trans h).trans
      (List.perm_insertionSort (· ≤ ·) l2).symm)
    (List.sorted_insertionSort (· ≤ ·) l1)
    (List.sorted_insertionSort (· ≤ ·) l2)

theorem calculate_interface_checksum_perm (name : String) {l1 l2 : List Nat}
    (h : l1.Perm l2) :
    calculate_interface_checksum name l1 =
      calculate_interface_checksum name l2 := by
  unfold calculate_interface_checksum
  rw [pySorted_perm_eq h]

/-- What the pass stores on a named record node: the checksum of its
name together with its directly collected function checksums. -/
theorem addIfaceChecksums_at_record (fs : List (String × JValue)) (s : String)
    (hk : hasKind (.obj fs) "CXXRecordDecl" = true)
    (hn : getTruthyStr (.obj fs) "name" = some s) :
    getField (add_interface_checksums_recursive (.obj fs))
        "interface_checksum" =
      some (.num (calculate_interface_checksum s
        (collectFunctionChecksums fs))) := by
  simp only [add_interface_checksums_recursive, hk, if_true, hn]
  show lookupField (setField _ "interface_checksum" _) "interface_checksum" = _
  rw [lookupField_setField_self]

/-- C2: the interface checksum is invariant under permutation of — and
determined only by — the collected member function checksums: two
record nodes with the same name whose collected checksum lists are
permutations of each other (in particular, arising from permuted method
declarations, by the third conjunct) receive equal
`interface_checksum` values. -/
theorem claim_C2 (fs1 fs2 : List (String × JValue)) (s : String)
    (hk1 : hasKind (.obj fs1) "CXXRecordDecl" = true)
    (hk2 : hasKind (.obj fs2) "CXXRecordDecl" = true)
    (hn1 : getTruthyStr (.obj fs1) "name" = some s)
    (hn2 : getTruthyStr (.obj fs2) "name" = some s)
    (hperm : (collectFunctionChecksums fs1).Perm (collectFunctionChecksums fs2)) :
    (getField (add_interface_checksums_recursive (.obj fs1))
        "interface_checksum" =
      getField (add_interface_checksums_recursive (.obj fs2))
        "interface_checksum") ∧
    getField (add_interface_checksums_recursive (.obj fs1))
        "interface_checksum" =
      some (.num (calculate_interface_checksum s
        (collectFunctionChecksums fs1))) ∧
    (∀ items1 items2 : List JValue, items1.Perm items2 →
      (items1.filterMap checksumOfChild).Perm
        (items2.filterMap checksumOfChild)) := by
  refine ⟨?_, addIfaceChecksums_at_record fs1 s hk1 hn1,
    fun a b h => h.filterMap _⟩
  rw [addIfaceChecksums_at_record fs1 s hk1 hn1,
    addIfaceChecksums_at_record fs2 s hk2 hn2,
    calculate_interface_checksum_perm s hperm]

def c2Method (c : Nat) : JValue :=
  .obj [("kind", .str "CXXMethodDecl"), ("function_checksum", .num c)]

def c2Fields1 : List (String × JValue) :=
  [("kind", .str "CXXRecordDecl"), ("name", .str "ISample"),
   ("inner", .arr [c2Method 12, c2Method 999])]

def c2Fields2 : List (String × JValue) :=
  [("kind", .str "CXXRecordDecl"), ("name", .str "ISample"),
   ("inner", .arr [c2Method 999, c2Method 12])]

/-- Witness for C2: two concrete interfaces with the same member
checksums in opposite orders receive equal interface checksums. -/
theorem claim_C2_witness :
    (hasKind (.obj c2Fields1) "CXXRecordDecl" = true) ∧
    ((collectFunctionChecksums c2Fields1).Perm
      (collectFunctionChecksums c2Fields2)) ∧
    getField (add_interface_checksums_recursive (.obj c2Fields1))
        "interface_checksum" =
      getField (add_interface_checksums_recursive (.obj c2Fields2))
        "interface_checksum" :=
  ⟨rfl, by decide,
   (claim_C2 c2Fields1 c2Fields2 "ISample" rfl rfl rfl rfl (by decide)).1⟩

/-- C10: a direct `CXXMethodDecl` child whose `function_checksum` is
absent or zero is excluded from the collected list, so an interface
containing such a method hashes identically to the same interface
without it; and the interface checksum is determined by the name and the
directly collected checksums alone. -/
theorem claim_C10 (fs fsNo : List (String × JValue)) (s : String)
    (l1 l2 : List JValue) (m : JValue)
    (hk : hasKind (.obj fs) "CXXRecordDecl" = true)
    (hkNo : hasKind (.obj fsNo) "CXXRecordDecl" = true)
    (hn : getTruthyStr (.obj fs) "name" = some s)
    (hnNo : getTruthyStr (.obj fsNo) "name" = some s)
    (hmk : hasKind m "CXXMethodDecl" = true)
    (hm : getField m "function_checksum" = none ∨
      getField m "function_checksum" = some (.num 0))
    (hi : lookupField fs "inner" = some (.arr (l1 ++ m :: l2)))
    (hiNo : lookupField fsNo "inner" = some (.arr (l1 ++ l2))) :
    getField (add_interface_checksums_recursive (.obj fs))
        "interface_checksum" =
      getField (add_interface_checksums_recursive (.obj fsNo))
        "interface_checksum" ∧
    (∀ fsA fsB : List (String × JValue),
      hasKind (.obj fsA) "CXXRecordDecl" = true →
      hasKind (.obj fsB) "CXXRecordDecl" = true →
      getTruthyStr (.obj fsA) "name" = some s →
      getTruthyStr (.obj fsB) "name" = some s →
      collectFunctionChecksums fsA = collectFunctionChecksums fsB →
      getField (add_interface_checksums_recursive (.obj fsA))
          "interface_checksum" =
        getField (add_interface_checksums_recursive (.obj fsB))
          "interface_checksum") := by
  have hdet : ∀ fsA fsB : List (String × JValue),
      hasKind (.obj fsA) "CXXRecordDecl" = true →
      hasKind (.obj fsB) "CXXRecordDecl" = true →
      getTruthyStr (.obj fsA) "name" = some s →
      getTruthyStr (.obj fsB) "name" = some s →
      collectFunctionChecksums fsA = collectFunctionChecksums fsB →
      getField (add_interface_checksums_recursive (.obj fsA))
          "interface_checksum" =
        getField (add_interface_checksums_recursive (.obj fsB))
          "interface_checksum" := by
    intro fsA fsB hkA hkB hnA hnB hcoll
    rw [addIfaceChecksums_at_record fsA s hkA hnA,
      addIfaceChecksums_at_record fsB s hkB hnB, hcoll]
  have hnone : checksumOfChild m = none := by
    cases m with
    | obj cfs =>
      show (if hasKind (.obj cfs) "CXXMethodDecl" = true then _ else _) = _
      rw [if_pos hmk]
      rcases hm with hnoneF | hzero
      · have : lookupField cfs "function_checksum" = none := hnoneF
        simp [this]
      · have : lookupField cfs "function_checksum" = some (.num 0) := hzero
        simp [this, jTruthy]
    | null => rfl
    | bool b => simp [hasKind, kindOf, getField] at hmk
    | num n => simp [hasKind, kindOf, getField] at hmk
    | str ss => simp [hasKind, kindOf, getField] at hmk
    | arr es => simp [hasKind, kindOf, getField] at hmk
  refine ⟨?_, hdet⟩
  apply hdet fs fsNo hk hkNo hn hnNo
  unfold collectFunctionChecksums
  rw [hi, hiNo]
  simp [List.filterMap_append, List.filterMap_cons, hnone]

def c10MethodNoSum : JValue :=
  .obj [("kind", .str "CXXMethodDecl"), ("name", .str "Unhashed")]

def c10Fields : List (String × JValue) :=
  [("kind", .str "CXXRecordDecl"), ("name", .str "ISample"),
   ("inner", .arr [c2Method 12, c10MethodNoSum])]

def c10FieldsNo : List (String × JValue) :=
  [("kind", .str "CXXRecordDecl"), ("name", .str "ISample"),
   ("inner", .arr [c2Method 12])]

/-- Witness for C10: a concrete interface with a checksum-less method
hashes identically to the same interface without it. -/
theorem claim_C10_witness :
    (hasKind c10MethodNoSum "CXXMethodDecl" = true) ∧
    (getField c10MethodNoSum "function_checksum" = none) ∧
    getField (add_interface_checksums_recursive (.obj c10Fields))
        "interface_checksum" =
      getField (add_interface_checksums_recursive (.obj c10FieldsNo))
        "interface_checksum" :=
  ⟨rfl, rfl,
   (claim_C10 c10Fields c10FieldsNo "ISample" [c2Method 12] []
      c10MethodNoSum rfl rfl rfl rfl rfl (Or.inl rfl) rfl rfl).1⟩

/-! ### The signature extractor -/

/-- Python `str.strip()` whitespace, on ASCII text. -/
def pyIsSpace (c : Char) : Bool :=
  c = ' ' || c = '\t' || c = '\n' || c = '\r' || c = '\x0b' || c = '\x0c'

/-- `s.strip()`. -/
def pyStrip (l : List Char) : List Char :=
  ((l.dropWhile pyIsSpace).reverse.dropWhile pyIsSpace).reverse

/-- The return-type assignments of `extract_method_signature_details`
(generate_cxx_ast.py:968): when `type.qualType` is a non-empty string
whose first `(` sits at a positive index (`paren_idx > 0`), the trimmed
prefix becomes the native return type, translated per target; otherwise
nothing is assigned.  A missing `type` defaults to `{}` and a missing
`qualType` to `""`, both of which skip the block; a non-dict `type`
skips it too. -/
def returnTypeUpdates (fs : List (String × JValue)) : List (String × JValue) :=
  match lookupField fs "type" with
  | some (.obj tfs) =>
    match lookupField tfs "qualType" with
    | some (.str q) =>
      if q = "" then []
      else
        match q.data.findIdx? (fun c => c = '(') with
        | some i =>
          if 0 < i then
            let rt : String := ⟨pyStrip (q.data.take i)⟩
            [("native_return_type", .str rt),
             ("csharp_return_type",
               .str (convert_type_to_target_language rt "csharp")),
             ("rust_return_type",
               .str (convert_type_to_target_language rt "rust")),
             ("returnType", .str rt)]
          else []
        | none => []
    | some _ => []
    | none => []
  | some _ => []
  | none =>
    -- `node.get("type", {})` with no `type` field: `{}.get("qualType", "")`
    -- is falsy, so nothing is assigned
    []

/-- One entry of the `parameters` array (generate_cxx_ast.py:984): dict
children of kind `ParmVarDecl` whose `type` is a dict (or missing,
defaulting to `{}`) contribute a typed descriptor; a non-dict `type`
skips the child. -/
def paramEntryOf (child : JValue) : Option JValue :=
  match child with
  | .obj cfs =>
    if hasKind (.obj cfs) "ParmVarDecl" then
      let mk : List (String × JValue) → JValue := fun tfs =>
        let native : String :=
          match lookupField tfs "qualType" with
          | some (.str s) => s
          | _ => ""
        .obj [("name", .str (getStrD (.obj cfs) "name" "")),
              ("native_type", .str native),
              ("csharp_type",
                .str (convert_type_to_target_language native "csharp")),
              ("rust_type",
                .str (convert_type_to_target_language native "rust")),
              ("desugaredType",
                .str (match lookupField tfs "desugaredQualType" with
                      | some (.str s) => s
                      | _ => ""))]
      match lookupField cfs "type" with
      | some (.obj tfs) => some (mk tfs)
      | some _ => none
      | none => some (mk [])
    else none
  | _ => none

def paramsArrayOf (fs : List (String × JValue)) : List JValue :=
  match lookupField fs "inner" with
  | some (.arr items) => items.filterMap paramEntryOf
  | _ => []

mutual
/-- `extract_method_signature_details` (generate_cxx_ast.py:953): on every
`CXXMethodDecl` node, parse the return type out of `type.qualType`
(everything before the first parenthesis, trimmed — only when that
parenthesis sits at a positive index) and collect the typed `parameters`
array.  (Python assigns these fields and then recurses over
`node.values()`; the assigned values are strings and freshly built
parameter dicts on which the recursion is the identity, so assigning
after the recursion is equivalent.) -/
def extract_method_signature_details : JValue → JValue
  | .obj fs =>
    let fs' := extractSigFields fs
    if hasKind (.obj fs) "CXXMethodDecl" then
      .obj (applySets fs'
        (returnTypeUpdates fs ++ [("parameters", .arr (paramsArrayOf fs))]))
    else .obj fs'
  | .arr es => .arr (extractSigItems es)
  | v => v
def extractSigFields : List (String × JValue) → List (String × JValue)
  | [] => []
  | (k, v) :: tl => (k, extract_method_signature_details v) :: extractSigFields tl
def extractSigItems : List JValue → List JValue
  | [] => []
  | v :: tl => extract_method_signature_details v :: extractSigItems tl
end

/-- A concrete method whose whole-function spelling starts with `(`:
it contains a parenthesis, but `paren_idx > 0` fails, so no return type
is extracted. -/
def c8BadMethod : JValue :=
  .obj [("kind", .str "CXXMethodDecl"),
        ("type", .obj [("qualType", .str "(int)")])]

/-- Counterexample to C8 as stated: `"(int)"` contains an opening
parenthesis, and the claim demands the trimmed prefix `""` as the
extracted native return type, yet the pass assigns no
`native_return_type` at all (the source requires `paren_idx > 0`, not
`>= 0`). -/
theorem claim_C8_counterexample :
    (("(int)" : String).data.contains '(' = true) ∧
    pyStrip (("(int)" : String).data.take 0) = [] ∧
    getField (extract_method_signature_details c8BadMethod)
      "native_return_type" = none := by
  refine ⟨by decide, rfl, rfl⟩

/-- C8 (amended): for a `CXXMethodDecl` whose `type.qualType` contains an
opening parenthesis at a *positive* index, the native return type is the
prefix before that first parenthesis with surrounding whitespace
stripped, and the per-target return types are its image under the fixed
primitive-type lookup table; a type absent from the table passes through
unchanged. -/
theorem claim_C8 (fs tfs : List (String × JValue)) (q : String) (i : Nat)
    (hk : hasKind (.obj fs) "CXXMethodDecl" = true)
    (ht : lookupField fs "type" = some (.obj tfs))
    (hq : lookupField tfs "qualType" = some (.str q))
    (hidx : q.data.findIdx? (fun c => c = '(') = some i)
    (hpos : 0 < i) :
    (getField (extract_method_signature_details (.obj fs))
        "native_return_type" = some (.str ⟨pyStrip (q.data.take i)⟩)) ∧
    (getField (extract_method_signature_details (.obj fs))
        "csharp_return_type" =
      some (.str (convert_type_to_target_language
        ⟨pyStrip (q.data.take i)⟩ "csharp"))) ∧
    (getField (extract_method_signature_details (.obj fs))
        "rust_return_type" =
      some (.str (convert_type_to_target_language
        ⟨pyStrip (q.data.take i)⟩ "rust"))) ∧
    (getField (extract_method_signature_details (.obj fs))
        "returnType" = some (.str ⟨pyStrip (q.data.take i)⟩)) ∧
    (∀ native target : String,
      TYPE_CONVERSION_TABLE.find? (fun e => e.1 == native) = none →
      convert_type_to_target_language native target = native) := by
  have hne : ¬(q = "") := by
    intro hq0
    subst hq0
    simp [List.findIdx?] at hidx
  have hupd : returnTypeUpdates fs =
      [("native_return_type", .str ⟨pyStrip (q.data.take i)⟩),
       ("csharp_return_type",
         .str (convert_type_to_target_language ⟨pyStrip (q.data.take i)⟩ "csharp")),
       ("rust_return_type",
         .str (convert_type_to_target_language ⟨pyStrip (q.data.take i)⟩ "rust")),
       ("returnType", .str ⟨pyStrip (q.data.take i)⟩)] := by
    unfold returnTypeUpdates
    simp only [ht, hq, if_neg hne, hidx, if_pos hpos]
  have hbase : extract_method_signature_details (.obj fs) =
      .obj (applySets (extractSigFields fs)
        (returnTypeUpdates fs ++ [("parameters", .arr (paramsArrayOf fs))])) := by
    simp only [extract_method_signature_details, hk, if_true]
  rw [hbase, hupd]
  refine ⟨?_, ?_, ?_, ?_, ?_⟩
  · show lookupField (applySets _ _) "native_return_type" = _
    simp only [applySets, List.cons_append, List.nil_append, List.foldl_cons,
      List.foldl_nil]
    rw [lookupField_setField_ne _ _ _ _ (by decide),
      lookupField_setField_ne _ _ _ _ (by decide),
      lookupField_setField_ne _ _ _ _ (by decide),
      lookupField_setField_ne _ _ _ _ (by decide),
      lookupField_setField_self]
  · show lookupField (applySets _ _) "csharp_return_type" = _
    simp only [applySets, List.cons_append, List.nil_append, List.foldl_cons,
      List.foldl_nil]
    rw [lookupField_setField_ne _ _ _ _ (by decide),
      lookupField_setField_ne _ _ _ _ (by decide),
      lookupField_setField_ne _ _ _ _ (by decide),
      lookupField_setField_self]
  · show lookupField (applySets _ _) "rust_return_type" = _
    simp only [applySets, List.cons_append, List.nil_append, List.foldl_cons,
      List.foldl_nil]
    rw [lookupField_setField_ne _ _ _ _ (by decide),
      lookupField_setField_ne _ _ _ _ (by decide),
      lookupField_setField_self]
  · show lookupField (applySets _ _) "returnType" = _
    simp only [applySets, List.cons_append, List.nil_append, List.foldl_cons,
      List.foldl_nil]
    rw [lookupField_setField_ne _ _ _ _ (by decide),
      lookupField_setField_self]
  · intro native target hmiss
    unfold convert_type_to_target_language
    rw [hmiss]

def c8GoodMethodType : List (String × JValue) :=
  [("qualType", .str "std::int32_t (int, bool)")]

def c8GoodMethod : List (String × JValue) :=
  [("kind", .str "CXXMethodDecl"), ("name", .str "DoSomething1"),
   ("type", .obj c8GoodMethodType)]

/-- Witness for C8: the concrete spelling
`"std::int32_t (int, bool)"` yields native return type `std::int32_t`,
C# `Int32`, Rust `i32`; a spelling absent from the table
(`MyInterface`) passes through unchanged. -/
theorem claim_C8_witness :
    (("std::int32_t (int, bool)" : String).data.findIdx?
      (fun c => c = '(') = some 13) ∧
    getField (extract_method_signature_details (.obj c8GoodMethod))
        "native_return_type" = some (.str "std::int32_t") ∧
    getField (extract_method_signature_details (.obj c8GoodMethod))
        "csharp_return_type" = some (.str "Int32") ∧
    getField (extract_method_signature_details (.obj c8GoodMethod))
        "rust_return_type" = some (.str "i32") ∧
    convert_type_to_target_language "MyInterface" "rust" = "MyInterface" := by
  have h := claim_C8 c8GoodMethod c8GoodMethodType
    "std::int32_t (int, bool)" 13 rfl rfl rfl (by decide) (by decide)
  exact ⟨by decide, h.1, h.2.1, h.2.2.1,
    h.2.2.2.2 "MyInterface" "rust" (by decide)⟩

/-! ### Tree merge -/

/-- The distinguishable error conditions of `post_process_ast_json`: the
one deliberate `raise ValueError("No valid JSON objects found in AST
output")`, versus a dynamic-type error (Python `TypeError` /
`AttributeError` / `ValueError` from `dict.update`) raised by operating
on a value of the wrong shape.  Either is caught by the surrounding
`except Exception` handler, which makes the stage return `False`
without writing a document. -/
inductive PPError where
  | emptyInput
  | typeError
  deriving DecidableEq

def isPrefixOfChars : List Char → List Char → Bool
  | [], _ => true
  | _ :: _, [] => false
  | a :: as, b :: bs => a = b && isPrefixOfChars as bs

/-- Python `pat in s` on strings: substring containment. -/
def containsSubstr (pat : List Char) : List Char → Bool
  | [] => pat.isEmpty
  | c :: rest => isPrefixOfChars pat (c :: rest) || containsSubstr pat rest

def isStrInner : JValue → Bool
  | .str s => s = "inner"
  | _ => false

/-- The per-fragment test of the merge loop (generate_cxx_ast.py:1066):
`if "inner" in obj and isinstance(obj["inner"], list)`.  A dict yields
its `inner` list when present as a list.  On a string, `in` tests
substring containment and the subsequent `obj["inner"]` raises
`TypeError`; on a list, `in` tests element equality with the same
consequence; on a number/bool/None, `in` itself raises. -/
def innerOfFragment : JValue → Except PPError (Option (List JValue))
  | .obj fs =>
    match lookupField fs "inner" with
    | some (.arr l) => .ok (some l)
    | _ => .ok none
  | .str s =>
    if containsSubstr "inner".data s.data then .error .typeError else .ok none
  | .arr es =>
    if es.any isStrInner then .error .typeError else .ok none
  | _ => .error .typeError

/-- The `inner` list a fragment would contribute, for fragments on which
the test does not raise. -/
def fragInnerOpt : JValue → Option (List JValue)
  | .obj fs =>
    match lookupField fs "inner" with
    | some (.arr l) => some l
    | _ => none
  | _ => none

/-- The merge step of `post_process_ast_json` (generate_cxx_ast.py:1059):
with a single fragment the tree is used as is; with several, the first
fragment gets an `"inner": []` entry appended when it lacks one, and
every subsequent fragment's `inner` list is appended onto the base's
`inner` in sequence order.  `.error .typeError` marks exactly the
places where Python's dynamic operations raise: the `"inner" not in`
test or `ast_data["inner"]` assignment on a non-dict base, extending a
non-list base `inner` when some fragment actually contributes one, and
a fragment whose own test raises (`innerOfFragment`). -/
def mergeFragments (first : JValue) (rest : List JValue) :
    Except PPError JValue :=
  match rest with
  | [] => .ok first
  | _ :: _ =>
    match first with
    | .obj fs =>
      let fs1 := if hasField fs "inner" then fs else fs ++ [("inner", .arr [])]
      match rest.mapM innerOfFragment with
      | .error e => .error e
      | .ok opts =>
        let inners := opts.filterMap id
        if inners.isEmpty then .ok (.obj fs1)
        else
          match lookupField fs1 "inner" with
          | some (.arr base) =>
            .ok (.obj (setField fs1 "inner" (.arr (base ++ inners.flatten))))
          | _ => .error .typeError
    | .str s =>
      if containsSubstr "inner".data s.data then
        match rest.mapM innerOfFragment with
        | .error e => .error e
        | .ok opts =>
          if (opts.filterMap id).isEmpty then .ok (.str s)
          else .error .typeError
      else .error .typeError
    | .arr es =>
      if es.any isStrInner then
        match rest.mapM innerOfFragment with
        | .error e => .error e
        | .ok opts =>
          if (opts.filterMap id).isEmpty then .ok (.arr es)
          else .error .typeError
      else .error .typeError
    | _ => .error .typeError

/-- The top-level children of a tree: its `inner` list when present as a
list, else nothing. -/
def topChildren (v : JValue) : List JValue :=
  match v with
  | .obj fs =>
    match lookupField fs "inner" with
    | some (.arr l) => l
    | _ => []
  | _ => []

theorem lookupField_append (l1 l2 : List (String × JValue)) (k : String) :
    lookupField (l1 ++ l2) k =
      match lookupField l1 k with
      | some v => some v
      | none => lookupField l2 k := by
  induction l1 with
  | nil => simp [lookupField]
  | cons hd tl ih =>
    obtain ⟨k', v⟩ := hd
    by_cases h : k' = k <;> simp [lookupField, h, ih]

theorem mapM_innerOfFragment_of_objs (rest : List JValue)
    (h : ∀ o ∈ rest, ∃ gs, o = JValue.obj gs) :
    rest.mapM innerOfFragment = .ok (rest.map fragInnerOpt) := by
  induction rest with
  | nil => rfl
  | cons o tl ih =>
    obtain ⟨gs, rfl⟩ := h o (by simp)
    have htl := ih (fun o ho => h o (by simp [ho]))
    have ho : innerOfFragment (JValue.obj gs) =
        Except.ok (fragInnerOpt (JValue.obj gs)) := by
      show (match lookupField gs "inner" with
            | some (JValue.arr l) => Except.ok (some l)
            | _ => (.ok none : Except PPError (Option (List JValue)))) =
        Except.ok (match lookupField gs "inner" with
                   | some (JValue.arr l) => some l
                   | _ => none)
      cases lookupField gs "inner" with
      | none => rfl
      | some v => cases v <;> rfl
    rw [List.mapM_cons, ho, htl]
    rfl

theorem flatten_filterMap_id (opts : List (Option (List JValue))) :
    (opts.filterMap id).flatten = (opts.map (fun o => o.getD [])).flatten := by
  induction opts with
  | nil => rfl
  | cons o tl ih =>
    cases o <;> simp [ih]

theorem filterMap_id_isEmpty_all_none (opts : List (Option (List JValue)))
    (h : (opts.filterMap id).isEmpty = true) :
    ∀ o ∈ opts, o = none := by
  induction opts with
  | nil => simp
  | cons o tl ih =>
    cases o with
    | none =>
      intro x hx
      rcases List.mem_cons.mp hx with rfl | hx
      · rfl
      · exact ih (by simpa [List.filterMap_cons] using h) x hx
    | some l => simp [List.filterMap_cons] at h

/-- C7: the merged tree is the first fragment with its top-level children
list extended, in sequence order, by the top-level children of each
subsequent fragment, other fields untouched.  (With two fragments this
is exactly concatenation of the two child lists.) -/
theorem claim_C7 (fs : List (String × JValue)) (rest : List JValue)
    (hbase : lookupField fs "inner" = none ∨
      ∃ l, lookupField fs "inner" = some (.arr l))
    (hrest : ∀ o ∈ rest, ∃ gs, o = JValue.obj gs) :
    ∃ fs' : List (String × JValue),
      mergeFragments (.obj fs) rest = .ok (.obj fs') ∧
      topChildren (.obj fs') =
        topChildren (.obj fs) ++ (rest.map topChildren).flatten ∧
      ∀ k, k ≠ "inner" → lookupField fs' k = lookupField fs k := by
  have htop : ∀ o ∈ rest, topChildren o = (fragInnerOpt o).getD [] := by
    intro o ho
    obtain ⟨gs, rfl⟩ := hrest o ho
    show (match lookupField gs "inner" with
          | some (JValue.arr l) => l
          | _ => []) =
      (match lookupField gs "inner" with
       | some (JValue.arr l) => some l
       | _ => none).getD []
    cases lookupField gs "inner" with
    | none => rfl
    | some v => cases v <;> rfl
  have hflat : (rest.map topChildren).flatten =
      ((rest.map fragInnerOpt).filterMap id).flatten := by
    rw [flatten_filterMap_id, List.map_map]
    congr 1
    exact List.map_congr_left (fun o ho => htop o ho)
  cases rest with
  | nil =>
    exact ⟨fs, rfl, by simp, fun k _ => rfl⟩
  | cons r rtl =>
    have hmapM := mapM_innerOfFragment_of_objs (r :: rtl) hrest
    by_cases hin : hasField fs "inner" = true
    · obtain ⟨l, hl⟩ : ∃ l, lookupField fs "inner" = some (.arr l) := by
        rcases hbase with h0 | h0
        · rw [hasField, h0] at hin
          simp at hin
        · exact h0
      by_cases hemp : (((r :: rtl).map fragInnerOpt).filterMap id).isEmpty = true
      · refine ⟨fs, ?_, ?_, fun k _ => rfl⟩
        · show mergeFragments (.obj fs) (r :: rtl) = Except.ok (.obj fs)
          unfold mergeFragments
          rw [hmapM]
          simp only [if_pos hin, if_pos hemp]
        · have hall := filterMap_id_isEmpty_all_none _ hemp
          have hz : ∀ o ∈ (r :: rtl), topChildren o = [] := by
            intro o ho
            rw [htop o ho, hall (fragInnerOpt o) (List.mem_map_of_mem _ ho)]
            rfl
          have hfl : (List.map topChildren (r :: rtl)).flatten = [] := by
            apply List.flatten_eq_nil_iff.mpr
            intro xs hxs
            obtain ⟨o, ho, rfl⟩ := List.mem_map.mp hxs
            exact hz o ho
          rw [hfl, List.append_nil]
      · refine ⟨setField fs "inner"
          (.arr (l ++ (((r :: rtl).map fragInnerOpt).filterMap id).flatten)),
          ?_, ?_, ?_⟩
        · show mergeFragments (.obj fs) (r :: rtl) = _
          unfold mergeFragments
          rw [hmapM]
          simp only [if_pos hin, if_neg hemp, hl]
        · show (match lookupField (setField fs "inner"
              (.arr (l ++ (((r :: rtl).map fragInnerOpt).filterMap id).flatten)))
              "inner" with
            | some (JValue.arr l) => l
            | _ => []) =
            topChildren (JValue.obj fs) ++
              (List.map topChildren (r :: rtl)).flatten
          rw [lookupField_setField_self, hflat]
          show l ++ _ = (match lookupField fs "inner" with
            | some (JValue.arr l) => l
            | _ => []) ++ _
          rw [hl]
        · intro k hk
          exact lookupField_setField_ne _ _ _ _ hk
    · have hinF : hasField fs "inner" = false := by simpa using hin
      have hl : lookupField fs "inner" = none := by
        rcases hbase with h0 | h0
        · exact h0
        · obtain ⟨l, hl⟩ := h0
          rw [hasField, hl] at hinF
          simp at hinF
      have hl1 : lookupField (fs ++ [("inner", JValue.arr [])]) "inner" =
          some (.arr []) := by
        rw [lookupField_append, hl]
        simp [lookupField]
      have hlk : ∀ k, k ≠ "inner" →
          lookupField (fs ++ [("inner", JValue.arr [])]) k = lookupField fs k := by
        intro k hk
        rw [lookupField_append]
        cases hx : lookupField fs k with
        | some v => rfl
        | none => simp [lookupField, Ne.symm hk]
      have htfs : topChildren (JValue.obj fs) = [] := by
        show (match lookupField fs "inner" with
              | some (JValue.arr l) => l
              | _ => []) = []
        rw [hl]
      by_cases hemp : (((r :: rtl).map fragInnerOpt).filterMap id).isEmpty = true
      · refine ⟨fs ++ [("inner", JValue.arr [])], ?_, ?_, hlk⟩
        · show mergeFragments (.obj fs) (r :: rtl) = _
          unfold mergeFragments
          rw [hmapM]
          simp only [if_neg hin, if_pos hemp]
        · have hall := filterMap_id_isEmpty_all_none _ hemp
          have hz : ∀ o ∈ (r :: rtl), topChildren o = [] := by
            intro o ho
            rw [htop o ho, hall (fragInnerOpt o) (List.mem_map_of_mem _ ho)]
            rfl
          have hfl : (List.map topChildren (r :: rtl)).flatten = [] := by
            apply List.flatten_eq_nil_iff.mpr
            intro xs hxs
            obtain ⟨o, ho, rfl⟩ := List.mem_map.mp hxs
            exact hz o ho
          show (match lookupField (fs ++ [("inner", JValue.arr [])]) "inner" with
                | some (JValue.arr l) => l
                | _ => []) = _
          rw [hl1, htfs, hfl]
          rfl
      · refine ⟨setField (fs ++ [("inner", JValue.arr [])]) "inner"
          (.arr ((((r :: rtl).map fragInnerOpt).filterMap id).flatten)),
          ?_, ?_, ?_⟩
        · show mergeFragments (.obj fs) (r :: rtl) = _
          unfold mergeFragments
          rw [hmapM]
          simp only [if_neg hin, if_neg hemp, hl1]
          rw [List.nil_append]
        · show (match lookupField (setField (fs ++ [("inner", JValue.arr [])])
              "inner" (.arr ((((r :: rtl).map fragInnerOpt).filterMap id).flatten)))
              "inner" with
            | some (JValue.arr l) => l
            | _ => []) =
            topChildren (JValue.obj fs) ++
              (List.map topChildren (r :: rtl)).flatten
          rw [lookupField_setField_self, hflat, htfs]
          rfl
        · intro k hk
          rw [lookupField_setField_ne _ _ _ _ hk]
          exact hlk k hk

def c7BaseFields : List (String × JValue) :=
  [("kind", .str "TranslationUnitDecl"),
   ("inner", .arr [.str "a"])]

def c7Frag2Fields : List (String × JValue) :=
  [("inner", .arr [.str "b", .str "c"])]

/-- Witness for C7: merging two concrete fragments concatenates their
top-level children in order and keeps the base's other fields. -/
theorem claim_C7_witness :
    (lookupField c7BaseFields "inner" = none ∨
      ∃ l, lookupField c7BaseFields "inner" = some (.arr l)) ∧
    (∃ fs' : List (String × JValue),
      mergeFragments (.obj c7BaseFields) [.obj c7Frag2Fields] =
        .ok (.obj fs') ∧
      topChildren (.obj fs') =
        topChildren (.obj c7BaseFields) ++
          ([JValue.obj c7Frag2Fields].map topChildren).flatten ∧
      ∀ k, k ≠ "inner" → lookupField fs' k = lookupField c7BaseFields k) :=
  ⟨Or.inr ⟨_, rfl⟩,
   claim_C7 c7BaseFields [.obj c7Frag2Fields] (Or.inr ⟨_, rfl⟩)
     (fun _ ho => ⟨c7Frag2Fields, List.mem_singleton.mp ho⟩)⟩

/-! ### The ordering annotator (`add_last_flags_recursive`) -/

/-- Python `str(x)` for scalar JSON values, as interpolated by the
f-string `f"{kind}+isImplicit={is_implicit}"`.  Containers get a fixed
placeholder: their Python `repr` is irrelevant here because clang trees
carry only string kinds and boolean `isImplicit` flags, and the
constructor is all the surrounding proofs depend on. -/
def pyScalarStr : JValue → String
  | .null => "None"
  | .bool true => "True"
  | .bool false => "False"
  | .num n => toString n
  | .str s => s
  | .arr _ => "[...]"
  | .obj _ => "\x7b...\x7d"

/-- The grouping key of `add_last_flags_recursive`
(generate_cxx_ast.py:684): dict items are grouped by their `kind`
(default `"_no_kind"`); `CXXMethodDecl` items are further split by
`isImplicit` (default `False`) via
`f"{kind}+isImplicit={is_implicit}"`.  Non-dict items belong to no
group. -/
def groupKeyOf (v : JValue) : Option String :=
  match v with
  | .obj fs =>
    let kind : String :=
      match lookupField fs "kind" with
      | some (.str s) => s
      | none => "_no_kind"
      | some w => pyScalarStr w
    if kind = "CXXMethodDecl" then
      let isImpl : String :=
        match lookupField fs "isImplicit" with
        | some w => pyScalarStr w
        | none => "False"
      some (kind ++ "+isImplicit=" ++ isImpl)
    else some kind
  | _ => none

/-- Append index `i` to the insertion-ordered group map entry for `k`,
creating the entry at the end when absent — exactly how the Python loop
fills `kind_groups`. -/
def insGroup : List (String × List Nat) → String → Nat → List (String × List Nat)
  | [], k, i => [(k, [i])]
  | (k', idxs) :: tl, k, i =>
    if k' = k then (k', idxs ++ [i]) :: tl else (k', idxs) :: insGroup tl k i

def kindGroupsAux : Nat → List JValue → List (String × List Nat) →
    List (String × List Nat)
  | _, [], gs => gs
  | i, v :: tl, gs =>
    kindGroupsAux (i + 1) tl
      (match groupKeyOf v with
       | some k => insGroup gs k i
       | none => gs)

/-- The `kind_groups` dict: group key to ascending list of indices. -/
def kindGroups (l : List JValue) : List (String × List Nat) :=
  kindGroupsAux 0 l []

def lookupGroup : List (String × List Nat) → String → Option (List Nat)
  | [], _ => none
  | (k, idxs) :: tl, key =>
    if k = key then some idxs else lookupGroup tl key

/-- `value[i]["flag"] = True`, guarded by `isinstance(value[i], dict)`. -/
def setItemFlag (l : List JValue) (i : Nat) (flag : String) : List JValue :=
  match l[i]? with
  | some (.obj fs) => l.set i (.obj (setField fs flag (.bool true)))
  | _ => l

/-- Mark one group: `first` at `indices[0]`, then `last` at
`indices[-1]`. -/
def applyGroup (acc : List JValue) (g : String × List Nat) : List JValue :=
  match g.2 with
  | [] => acc
  | i :: rest =>
    setItemFlag (setItemFlag acc i "first") (rest.getLastD i) "last"

def markGroups (l : List JValue) (gs : List (String × List Nat)) :
    List JValue :=
  gs.foldl applyGroup l

/-- The defaulting loop: `item["first"] = False` / `item["last"] = False`
when the key is absent (appending, like any assignment of a missing
key). -/
def addDefaultFlags : JValue → JValue
  | .obj fs =>
    let fs1 := if hasField fs "first" then fs
               else fs ++ [("first", .bool false)]
    let fs2 := if hasField fs1 "last" then fs1
               else fs1 ++ [("last", .bool false)]
    .obj fs2
  | v => v

/-- The whole per-array treatment: group, mark first/last, then default
the remaining flags. -/
def markFirstLast (l : List JValue) : List JValue :=
  (markGroups l (kindGroups l)).map addDefaultFlags

mutual
/-- `add_last_flags_recursive` (generate_cxx_ast.py:667): inside every
dict, each non-empty list value is partitioned by group key, its first
and last member per group get `first = true` / `last = true`, every
other member defaults to `false`, and all other values are processed
recursively.  Ordering note: Python marks the array in place and then
recurses into each element; here each element is recursed first and the
array marked afterwards.  The two agree because the recursion neither
adds nor removes top-level keys of an element and maps its scalar
`kind` / `isImplicit` / flag values to themselves, while the marking
only touches the scalar `first`/`last` fields. -/
def add_last_flags_recursive : JValue → JValue
  | .obj fs => .obj (lastFlagsFields fs)
  | .arr es => .arr (lastFlagsItems es)
  | v => v
def lastFlagsFields : List (String × JValue) → List (String × JValue)
  | [] => []
  | (k, v) :: tl => (k, processListValue v) :: lastFlagsFields tl
def processListValue : JValue → JValue
  | .arr (e :: es) => .arr (markFirstLast (lastFlagsItems (e :: es)))
  | v => add_last_flags_recursive v
def lastFlagsItems : List JValue → List JValue
  | [] => []
  | v :: tl => add_last_flags_recursive v :: lastFlagsItems tl
end

/-- The ascending indices (from offset `i0`) of items with group key
`k`. -/
def idxsFrom (k : String) : Nat → List JValue → List Nat
  | _, [] => []
  | i, v :: tl =>
    if groupKeyOf v = some k then i :: idxsFrom k (i + 1) tl
    else idxsFrom k (i + 1) tl

def idxsOfKey (l : List JValue) (k : String) : List Nat := idxsFrom k 0 l

theorem lookupGroup_insGroup_self (gs : List (String × List Nat))
    (k : String) (i : Nat) :
    lookupGroup (insGroup gs k i) k =
      some ((lookupGroup gs k).getD [] ++ [i]) := by
  induction gs with
  | nil => simp [insGroup, lookupGroup]
  | cons hd tl ih =>
    obtain ⟨k', idxs⟩ := hd
    by_cases h : k' = k
    · subst h
      simp [insGroup, lookupGroup]
    · simp [insGroup, lookupGroup, h, ih]

theorem lookupGroup_insGroup_ne (gs : List (String × List Nat))
    (k k' : String) (i : Nat) (h : k' ≠ k) :
    lookupGroup (insGroup gs k i) k' = lookupGroup gs k' := by
  induction gs with
  | nil => simp [insGroup, lookupGroup, Ne.symm h]
  | cons hd tl ih =>
    obtain ⟨k'', idxs⟩ := hd
    by_cases h2 : k'' = k
    · subst h2
      have hne : ¬(k'' = k') := fun hh => h hh.symm
      simp [insGroup, lookupGroup, hne]
    · by_cases h3 : k'' = k'
      · subst h3
        simp [insGroup, lookupGroup, h2]
      · simp [insGroup, lookupGroup, h2, h3, ih]

def optAppend (o : Option (List Nat)) (l : List Nat) : Option (List Nat) :=
  match o, l with
  | none, [] => none
  | none, l => some l
  | some g, l => some (g ++ l)

theorem kindGroupsAux_lookup (m : List JValue) :
    ∀ (i0 : Nat) (gs : List (String × List Nat)) (key : String),
    lookupGroup (kindGroupsAux i0 m gs) key =
      optAppend (lookupGroup gs key) (idxsFrom key i0 m) := by
  induction m with
  | nil =>
    intro i0 gs key
    show lookupGroup gs key = optAppend (lookupGroup gs key) []
    cases lookupGroup gs key with
    | none => rfl
    | some g => simp [optAppend]
  | cons v tl ih =>
    intro i0 gs key
    simp only [kindGroupsAux, idxsFrom]
    cases hv : groupKeyOf v with
    | none =>
      rw [ih]
      simp
    | some k =>
      by_cases hk : k = key
      · subst hk
        rw [ih, lookupGroup_insGroup_self]
        simp only [if_pos rfl]
        cases lookupGroup gs k with
        | none => simp [optAppend]
        | some g => simp [optAppend]
      · rw [ih, lookupGroup_insGroup_ne _ _ _ _ (Ne.symm hk)]
        simp [hk]

/-- Per-key content of `kind_groups`. -/
theorem kindGroups_lookup (m : List JValue) (key : String) :
    lookupGroup (kindGroups m) key =
      optAppend none (idxsOfKey m key) :=
  kindGroupsAux_lookup m 0 [] key

theorem mem_keys_insGroup {gs : List (String × List Nat)} {k k' : String}
    {i : Nat} (h : k' ∈ (insGroup gs k i).map Prod.fst) :
    k' ∈ gs.map Prod.fst ∨ k' = k := by
  induction gs with
  | nil => simpa [insGroup] using h
  | cons hd tl ih =>
    obtain ⟨k'', idxs⟩ := hd
    by_cases h2 : k'' = k
    · subst h2
      simpa [insGroup] using Or.inl (by simpa [insGroup] using h)
    · simp only [insGroup, if_neg h2, List.map_cons, List.mem_cons] at h
      rcases h with h | h
      · exact Or.inl (by simp [h])
      · rcases ih h with h | h
        · exact Or.inl (by simp [List.mem_cons]; right; exact (by simpa using h))
        · exact Or.inr h

theorem nodup_keys_insGroup {gs : List (String × List Nat)} {k : String}
    {i : Nat} (h : (gs.map Prod.fst).Nodup) :
    ((insGroup gs k i).map Prod.fst).Nodup := by
  induction gs with
  | nil => simp [insGroup]
  | cons hd tl ih =>
    obtain ⟨k'', idxs⟩ := hd
    simp only [List.map_cons, List.nodup_cons] at h
    by_cases h2 : k'' = k
    · subst h2
      simpa [insGroup, List.nodup_cons] using h
    · simp only [insGroup, if_neg h2, List.map_cons, List.nodup_cons]
      refine ⟨?_, ih h.2⟩
      intro hmem
      rcases mem_keys_insGroup hmem with hmem | hmem
      · exact h.1 hmem
      · exact h2 hmem

theorem nodup_keys_kindGroupsAux (m : List JValue) :
    ∀ (i0 : Nat) (gs : List (String × List Nat)),
    (gs.map Prod.fst).Nodup → ((kindGroupsAux i0 m gs).map Prod.fst).Nodup := by
  induction m with
  | nil => intro i0 gs h; exact h
  | cons v tl ih =>
    intro i0 gs h
    simp only [kindGroupsAux]
    cases groupKeyOf v with
    | none => exact ih (i0 + 1) gs h
    | some k => exact ih (i0 + 1) _ (nodup_keys_insGroup h)

theorem nodup_keys_kindGroups (m : List JValue) :
    ((kindGroups m).map Prod.fst).Nodup :=
  nodup_keys_kindGroupsAux m 0 [] (by simp)

theorem lookupGroup_of_mem {gs : List (String × List Nat)} {k : String}
    {idxs : List Nat} (hnd : (gs.map Prod.fst).Nodup)
    (h : (k, idxs) ∈ gs) : lookupGroup gs k = some idxs := by
  induction gs with
  | nil => simp at h
  | cons hd tl ih =>
    obtain ⟨k', idxs'⟩ := hd
    simp only [List.map_cons, List.nodup_cons] at hnd
    rcases List.mem_cons.mp h with h2 | h2
    · have hk : k' = k := (congrArg Prod.fst h2).symm
      have hv : idxs' = idxs := (congrArg Prod.snd h2).symm
      subst hk
      subst hv
      simp [lookupGroup]
    · have hk : ¬(k' = k) := by
        intro hkk
        subst hkk
        exact hnd.1 (by simpa using List.mem_map_of_mem Prod.fst h2)
      simp only [lookupGroup, if_neg hk]
      exact ih hnd.2 h2

theorem lookupGroup_decomp {gs : List (String × List Nat)} {key : String}
    {idxs : List Nat} (h : lookupGroup gs key = some idxs) :
    ∃ gs1 gs2, gs = gs1 ++ (key, idxs) :: gs2 ∧ ∀ p ∈ gs1, p.1 ≠ key := by
  induction gs with
  | nil => simp [lookupGroup] at h
  | cons hd tl ih =>
    obtain ⟨k', idxs'⟩ := hd
    by_cases h2 : k' = key
    · subst h2
      have h' : idxs' = idxs := by simpa [lookupGroup] using h
      subst h'
      exact ⟨[], tl, rfl, by simp⟩
    · simp only [lookupGroup, if_neg h2] at h
      obtain ⟨gs1, gs2, hg, hne⟩ := ih h
      refine ⟨(k', idxs') :: gs1, gs2, by simp [hg], ?_⟩
      intro p hp
      rcases List.mem_cons.mp hp with rfl | hp
      · exact h2
      · exact hne p hp

/-- Membership in the index list of a group. -/
theorem mem_idxsFrom (k : String) (m : List JValue) :
    ∀ (i0 j : Nat), j ∈ idxsFrom k i0 m ↔
      ∃ d v, m[d]? = some v ∧ groupKeyOf v = some k ∧ j = i0 + d := by
  induction m with
  | nil =>
    intro i0 j
    simp [idxsFrom]
  | cons v tl ih =>
    intro i0 j
    simp only [idxsFrom]
    by_cases hv : groupKeyOf v = some k
    · rw [if_pos hv]
      constructor
      · intro hj
        rcases List.mem_cons.mp hj with rfl | hj
        · exact ⟨0, v, by simp, hv, by omega⟩
        · obtain ⟨d, w, hw, hkw, hjw⟩ := (ih (i0 + 1) j).mp hj
          exact ⟨d + 1, w, by simpa using hw, hkw, by omega⟩
      · rintro ⟨d, w, hw, hkw, rfl⟩
        cases d with
        | zero => simp
        | succ d' =>
          refine List.mem_cons_of_mem _ ((ih (i0 + 1) _).mpr ?_)
          exact ⟨d', w, by simpa using hw, hkw, by omega⟩
    · rw [if_neg hv]
      constructor
      · intro hj
        obtain ⟨d, w, hw, hkw, hjw⟩ := (ih (i0 + 1) j).mp hj
        exact ⟨d + 1, w, by simpa using hw, hkw, by omega⟩
      · rintro ⟨d, w, hw, hkw, rfl⟩
        cases d with
        | zero =>
          simp only [List.getElem?_cons_zero, Option.some.injEq] at hw
          subst hw
          exact absurd hkw hv
        | succ d' =>
          refine (ih (i0 + 1) _).mpr ?_
          exact ⟨d', w, by simpa using hw, hkw, by omega⟩

theorem mem_idxsOfKey {m : List JValue} {k : String} {j : Nat} :
    j ∈ idxsOfKey m k ↔
      ∃ v, m[j]? = some v ∧ groupKeyOf v = some k := by
  rw [idxsOfKey, mem_idxsFrom]
  constructor
  · rintro ⟨d, v, hv, hk, rfl⟩
    exact ⟨v, by simpa using hv, hk⟩
  · rintro ⟨v, hv, hk⟩
    exact ⟨j, v, hv, hk, by omega⟩

theorem length_setItemFlag (l : List JValue) (i : Nat) (flag : String) :
    (setItemFlag l i flag).length = l.length := by
  unfold setItemFlag
  cases h : l[i]? with
  | none => rfl
  | some v => cases v <;> simp

theorem setItemFlag_getElem?_ne (l : List JValue) (i j : Nat) (flag : String)
    (h : i ≠ j) : (setItemFlag l i flag)[j]? = l[j]? := by
  unfold setItemFlag
  cases hv : l[i]? with
  | none => rfl
  | some v =>
    cases v with
    | obj fs => exact List.getElem?_set_ne h
    | null => rfl
    | bool b => rfl
    | num n => rfl
    | str s => rfl
    | arr es => rfl

theorem setItemFlag_getElem?_self {l : List JValue} {i : Nat}
    {fs : List (String × JValue)} (flag : String)
    (h : l[i]? = some (.obj fs)) :
    (setItemFlag l i flag)[i]? =
      some (.obj (setField fs flag (.bool true))) := by
  unfold setItemFlag
  rw [h]
  have hlen : i < l.length := by
    by_contra hge
    rw [List.getElem?_eq_none (by omega)] at h
    exact Option.noConfusion h
  rw [List.getElem?_set_self hlen]

theorem getLastD_mem_cons (rest : List Nat) (i : Nat) :
    rest.getLastD i ∈ i :: rest := by
  induction rest generalizing i with
  | nil => simp
  | cons a tl ih =>
    rw [List.getLastD_cons]
    exact List.mem_cons_of_mem i (ih a)

theorem getLast?_cons_getLastD (i : Nat) (rest : List Nat) :
    (i :: rest).getLast? = some (rest.getLastD i) := by
  rw [List.getLast?_cons, List.getLastD_eq_getLast?]

theorem markGroups_append (l : List JValue) (gs1 gs2 : List (String × List Nat)) :
    markGroups l (gs1 ++ gs2) = markGroups (markGroups l gs1) gs2 := by
  unfold markGroups
  exact List.foldl_append _ _ _ _

theorem markGroups_getElem?_untouched (gs : List (String × List Nat)) :
    ∀ (acc : List JValue) (j : Nat), (∀ g ∈ gs, j ∉ g.2) →
    (markGroups acc gs)[j]? = acc[j]? := by
  induction gs with
  | nil => intro acc _ _; rfl
  | cons g tl ih =>
    intro acc j h
    show (markGroups (applyGroup acc g) tl)[j]? = _
    rw [ih _ j (fun g' hg' => h g' (List.mem_cons_of_mem _ hg'))]
    unfold applyGroup
    cases hg : g.2 with
    | nil => rfl
    | cons i rest =>
      have hji : j ≠ i := by
        intro hj
        subst hj
        exact h g (by simp) (by rw [hg]; simp)
      have hjl : j ≠ rest.getLastD i := by
        intro hj
        apply h g (by simp)
        rw [hg, hj]
        exact getLastD_mem_cons rest i
      rw [setItemFlag_getElem?_ne _ _ _ _ (Ne.symm hjl),
        setItemFlag_getElem?_ne _ _ _ _ (Ne.symm hji)]

theorem length_markGroups (gs : List (String × List Nat)) :
    ∀ acc : List JValue, (markGroups acc gs).length = acc.length := by
  induction gs with
  | nil => intro acc; rfl
  | cons g tl ih =>
    intro acc
    show (markGroups (applyGroup acc g) tl).length = _
    rw [ih]
    unfold applyGroup
    cases g.2 with
    | nil => rfl
    | cons i rest => rw [length_setItemFlag, length_setItemFlag]

theorem mem_kindGroups_eq_idxs {m : List JValue} {k' : String}
    {idxs' : List Nat} (h : (k', idxs') ∈ kindGroups m) :
    idxs' = idxsOfKey m k' := by
  have hl := lookupGroup_of_mem (nodup_keys_kindGroups m) h
  rw [kindGroups_lookup] at hl
  cases hx : idxsOfKey m k' with
  | nil =>
    rw [hx] at hl
    simp [optAppend] at hl
  | cons a tl =>
    rw [hx] at hl
    simpa [optAppend] using hl.symm

theorem not_mem_other_group {m : List JValue} {j : Nat}
    {fs : List (String × JValue)} {k k' : String} {idxs' : List Nat}
    (hj : m[j]? = some (.obj fs)) (hk : groupKeyOf (.obj fs) = some k)
    (hmem : (k', idxs') ∈ kindGroups m) (hne : k' ≠ k) : j ∉ idxs' := by
  intro hjmem
  rw [mem_kindGroups_eq_idxs hmem] at hjmem
  obtain ⟨v, hv, hkv⟩ := mem_idxsOfKey.mp hjmem
  rw [hj] at hv
  injection hv with hv
  subst hv
  rw [hk] at hkv
  injection hkv with hkv
  exact hne hkv.symm

/-- The element at `j` after the group-marking loop: it receives
`first = true` exactly when `j` heads its own group's index list,
`last = true` exactly when `j` ends it, and no other group touches
it. -/
theorem marked_at {m : List JValue} {j : Nat} {fs : List (String × JValue)}
    {k : String} (hj : m[j]? = some (.obj fs))
    (hk : groupKeyOf (.obj fs) = some k) :
    (markGroups m (kindGroups m))[j]? = some (.obj (
      let fs1 := if (idxsOfKey m k).head? = some j
                 then setField fs "first" (.bool true) else fs
      if (idxsOfKey m k).getLast? = some j
      then setField fs1 "last" (.bool true) else fs1)) := by
  have hjmem : j ∈ idxsOfKey m k := mem_idxsOfKey.mpr ⟨_, hj, hk⟩
  cases hidxs : idxsOfKey m k with
  | nil =>
    rw [hidxs] at hjmem
    simp at hjmem
  | cons h0 rest =>
  rw [hidxs] at hjmem
  have hlook : lookupGroup (kindGroups m) k = some (h0 :: rest) := by
    rw [kindGroups_lookup, hidxs]
    rfl
  obtain ⟨gs1, gs2, hgs, hne1⟩ := lookupGroup_decomp hlook
  have hnd := nodup_keys_kindGroups m
  rw [hgs] at hnd
  have hne2 : ∀ p ∈ gs2, p.1 ≠ k := by
    intro p hp hpk
    have hnd2 : ((k, h0 :: rest) :: gs2).map Prod.fst |>.Nodup := by
      have := hnd
      rw [List.map_append] at this
      exact this.of_append_right
    simp only [List.map_cons, List.nodup_cons] at hnd2
    exact hnd2.1 (hpk ▸ List.mem_map_of_mem Prod.fst hp)
  have hmemK : ∀ i, i ∈ (h0 :: rest) →
      ∃ fsi, m[i]? = some (.obj fsi) ∧ groupKeyOf (.obj fsi) = some k := by
    intro i hi
    have hi' : i ∈ idxsOfKey m k := by rw [hidxs]; exact hi
    obtain ⟨v, hv, hkv⟩ := mem_idxsOfKey.mp hi'
    cases v with
    | obj fsi => exact ⟨fsi, hv, hkv⟩
    | null => simp [groupKeyOf] at hkv
    | bool b => simp [groupKeyOf] at hkv
    | num n => simp [groupKeyOf] at hkv
    | str s => simp [groupKeyOf] at hkv
    | arr es => simp [groupKeyOf] at hkv
  have hnotin1 : ∀ i, i ∈ (h0 :: rest) → ∀ g ∈ gs1, i ∉ g.2 := by
    intro i hi g hg
    obtain ⟨fsi, hfi, hki⟩ := hmemK i hi
    obtain ⟨k', idxs'⟩ := g
    exact not_mem_other_group hfi hki
      (by rw [hgs]; exact List.mem_append.mpr (Or.inl hg)) (hne1 _ hg)
  have hnotin2 : ∀ i, i ∈ (h0 :: rest) → ∀ g ∈ gs2, i ∉ g.2 := by
    intro i hi g hg
    obtain ⟨fsi, hfi, hki⟩ := hmemK i hi
    obtain ⟨k', idxs'⟩ := g
    exact not_mem_other_group hfi hki
      (by rw [hgs]
          exact List.mem_append.mpr (Or.inr (List.mem_cons_of_mem _ hg)))
      (hne2 _ hg)
  have heq : markGroups m (kindGroups m) =
      markGroups (applyGroup (markGroups m gs1) (k, h0 :: rest)) gs2 := by
    rw [hgs, markGroups_append]
    rfl
  rw [heq, markGroups_getElem?_untouched gs2 _ j (hnotin2 j hjmem)]
  have hacc1 : ∀ i, i ∈ (h0 :: rest) →
      (markGroups m gs1)[i]? = m[i]? := by
    intro i hi
    exact markGroups_getElem?_untouched gs1 m i (hnotin1 i hi)
  show (setItemFlag (setItemFlag (markGroups m gs1) h0 "first")
      (rest.getLastD h0) "last")[j]? = _
  simp only [hidxs, List.head?_cons, getLast?_cons_getLastD]
  by_cases hjh : j = h0
  · subst hjh
    have hstep1 : (setItemFlag (markGroups m gs1) j "first")[j]? =
        some (.obj (setField fs "first" (.bool true))) := by
      apply setItemFlag_getElem?_self
      rw [hacc1 j hjmem]
      exact hj
    by_cases hjl : rest.getLastD j = j
    · rw [hjl, setItemFlag_getElem?_self "last" hstep1]
      simp
    · rw [setItemFlag_getElem?_ne _ _ _ _ hjl, hstep1]
      rw [List.getLastD_eq_getLast?] at hjl
      simp [hjl]
  · have hstep1 : (setItemFlag (markGroups m gs1) h0 "first")[j]? = m[j]? := by
      rw [setItemFlag_getElem?_ne _ _ _ _ (fun hh => hjh hh.symm)]
      exact hacc1 j hjmem
    have hh0 : ¬ h0 = j := fun hh => hjh hh.symm
    by_cases hjl : rest.getLastD h0 = j
    · rw [hjl, setItemFlag_getElem?_self "last" (hstep1.trans hj)]
      simp [hh0]
    · rw [setItemFlag_getElem?_ne _ _ _ _ hjl, hstep1, hj]
      rw [List.getLastD_eq_getLast?] at hjl
      simp [hh0, hjl]

/-- A scalar JSON value: recursion of the ordering pass is the identity
on these. -/
def scalarVal : JValue → Bool
  | .null => true
  | .bool _ => true
  | .num _ => true
  | .str _ => true
  | .arr _ => false
  | .obj _ => false

/-- A dict node (any fields). -/
def isObjB : JValue → Bool
  | .obj _ => true
  | _ => false

/-- A dict that carries neither ordering flag yet (non-dicts trivially
qualify). -/
def noFlagsB : JValue → Bool
  | .obj fs => !hasField fs "first" && !hasField fs "last"
  | _ => true

theorem processListValue_scalar (v : JValue) (h : scalarVal v = true) :
    processListValue v = v := by
  cases v with
  | null => simp [processListValue, add_last_flags_recursive]
  | bool b => simp [processListValue, add_last_flags_recursive]
  | num n => simp [processListValue, add_last_flags_recursive]
  | str s => simp [processListValue, add_last_flags_recursive]
  | arr es => simp [scalarVal] at h
  | obj fs => simp [scalarVal] at h

theorem lastFlagsItems_eq_map (l : List JValue) :
    lastFlagsItems l = l.map add_last_flags_recursive := by
  induction l with
  | nil => simp [lastFlagsItems]
  | cons hd tl ih =>
    simp only [lastFlagsItems, List.map_cons]
    rw [ih]

/-- The recursion of the ordering pass maps a dict's fields pointwise:
looking a key up afterwards gives the processed image of its old
value. -/
theorem lookupField_lastFlagsFields (fs : List (String × JValue))
    (k : String) :
    lookupField (lastFlagsFields fs) k =
      (lookupField fs k).map processListValue := by
  induction fs with
  | nil => simp [lastFlagsFields, lookupField]
  | cons hd tl ih =>
    obtain ⟨k0, v⟩ := hd
    simp only [lastFlagsFields, lookupField]
    by_cases h : k0 = k
    · simp [h]
    · simp [h, ih]

theorem processListValue_obj_shape (fs : List (String × JValue)) :
    processListValue (.obj fs) = .obj (lastFlagsFields fs) := by
  simp [processListValue, add_last_flags_recursive]

theorem processListValue_arr_shape (es : List JValue) :
    ∃ es2, processListValue (.arr es) = .arr es2 := by
  cases es with
  | nil =>
    simp only [processListValue, add_last_flags_recursive]
    exact ⟨_, rfl⟩
  | cons e tl =>
    simp only [processListValue]
    exact ⟨_, rfl⟩

/-- The recursion never changes the Python rendering used by the group
key: scalars map to themselves, containers stay containers. -/
theorem pyScalarStr_processListValue (w : JValue) :
    pyScalarStr (processListValue w) = pyScalarStr w := by
  cases w with
  | null => rw [processListValue_scalar .null rfl]
  | bool b => rw [processListValue_scalar (.bool b) rfl]
  | num n => rw [processListValue_scalar (.num n) rfl]
  | str s => rw [processListValue_scalar (.str s) rfl]
  | arr es =>
    obtain ⟨es2, h⟩ := processListValue_arr_shape es
    rw [h]
    rfl
  | obj fs =>
    rw [processListValue_obj_shape]
    rfl

/-- The recursion never turns a non-string into a string (constructor
preserved). -/
theorem processListValue_str_iff (w : JValue) (s : String) :
    processListValue w = .str s ↔ w = .str s := by
  constructor
  · intro h
    cases w with
    | str t =>
      rw [processListValue_scalar (.str t) rfl] at h
      exact h
    | null =>
      rw [processListValue_scalar .null rfl] at h
      exact absurd h (by simp)
    | bool b =>
      rw [processListValue_scalar (.bool b) rfl] at h
      exact absurd h (by simp)
    | num n =>
      rw [processListValue_scalar (.num n) rfl] at h
      exact absurd h (by simp)
    | arr es =>
      obtain ⟨es2, h2⟩ := processListValue_arr_shape es
      rw [h2] at h
      exact absurd h (by simp)
    | obj fs =>
      rw [processListValue_obj_shape] at h
      exact absurd h (by simp)
  · intro h
    rw [h, processListValue_scalar (.str s) rfl]

/-- The group key of an element survives the recursion into it: `kind`
and `isImplicit` are looked up at the same keys, string values are kept
verbatim and non-strings keep their rendering. -/
theorem groupKeyOf_lastFlagsFields (fs : List (String × JValue)) :
    groupKeyOf (.obj (lastFlagsFields fs)) = groupKeyOf (.obj fs) := by
  cases hk : lookupField fs "kind" with
  | none =>
    cases hi : lookupField fs "isImplicit" with
    | none => simp [groupKeyOf, lookupField_lastFlagsFields, hk, hi]
    | some u =>
      simp [groupKeyOf, lookupField_lastFlagsFields, hk, hi,
        pyScalarStr_processListValue]
  | some w =>
    cases w with
    | str t =>
      cases hi : lookupField fs "isImplicit" with
      | none =>
        simp [groupKeyOf, lookupField_lastFlagsFields, hk, hi,
          processListValue_scalar (.str t) rfl]
      | some u =>
        simp [groupKeyOf, lookupField_lastFlagsFields, hk, hi,
          processListValue_scalar (.str t) rfl, pyScalarStr_processListValue]
    | null =>
      cases hi : lookupField fs "isImplicit" with
      | none =>
        simp [groupKeyOf, lookupField_lastFlagsFields, hk, hi,
          processListValue_scalar .null rfl]
      | some u =>
        simp [groupKeyOf, lookupField_lastFlagsFields, hk, hi,
          processListValue_scalar .null rfl, pyScalarStr_processListValue]
    | bool b =>
      cases hi : lookupField fs "isImplicit" with
      | none =>
        simp [groupKeyOf, lookupField_lastFlagsFields, hk, hi,
          processListValue_scalar (.bool b) rfl]
      | some u =>
        simp [groupKeyOf, lookupField_lastFlagsFields, hk, hi,
          processListValue_scalar (.bool b) rfl, pyScalarStr_processListValue]
    | num n =>
      cases hi : lookupField fs "isImplicit" with
      | none =>
        simp [groupKeyOf, lookupField_lastFlagsFields, hk, hi,
          processListValue_scalar (.num n) rfl]
      | some u =>
        simp [groupKeyOf, lookupField_lastFlagsFields, hk, hi,
          processListValue_scalar (.num n) rfl, pyScalarStr_processListValue]
    | arr es =>
      obtain ⟨es2, h2⟩ := processListValue_arr_shape es
      cases hi : lookupField fs "isImplicit" with
      | none =>
        simp [groupKeyOf, lookupField_lastFlagsFields, hk, hi, h2,
          pyScalarStr]
      | some u =>
        simp [groupKeyOf, lookupField_lastFlagsFields, hk, hi, h2,
          pyScalarStr, pyScalarStr_processListValue]
    | obj gfs =>
      cases hi : lookupField fs "isImplicit" with
      | none =>
        simp [groupKeyOf, lookupField_lastFlagsFields, hk, hi,
          processListValue_obj_shape, pyScalarStr]
      | some u =>
        simp [groupKeyOf, lookupField_lastFlagsFields, hk, hi,
          processListValue_obj_shape, pyScalarStr, pyScalarStr_processListValue]

theorem groupKeyOf_addLastFlags (v : JValue) :
    groupKeyOf (add_last_flags_recursive v) = groupKeyOf v := by
  cases v with
  | obj fs =>
    have h : add_last_flags_recursive (.obj fs) = .obj (lastFlagsFields fs) := by
      simp [add_last_flags_recursive]
    rw [h, groupKeyOf_lastFlagsFields]
  | arr es =>
    have h : add_last_flags_recursive (.arr es) = .arr (lastFlagsItems es) := by
      simp [add_last_flags_recursive]
    rw [h]
    rfl
  | null => simp [add_last_flags_recursive]
  | bool b => simp [add_last_flags_recursive]
  | num n => simp [add_last_flags_recursive]
  | str s => simp [add_last_flags_recursive]

theorem hasField_lastFlagsFields (fs : List (String × JValue)) (k : String) :
    hasField (lastFlagsFields fs) k = hasField fs k := by
  simp [hasField, lookupField_lastFlagsFields]

theorem idxsFrom_map_addLastFlags (k : String) (l : List JValue) :
    ∀ i, idxsFrom k i (l.map add_last_flags_recursive) = idxsFrom k i l := by
  induction l with
  | nil => intro i; rfl
  | cons hd tl ih =>
    intro i
    simp only [List.map_cons, idxsFrom, groupKeyOf_addLastFlags, ih]

theorem idxsOfKey_map_addLastFlags (l : List JValue) (k : String) :
    idxsOfKey (l.map add_last_flags_recursive) k = idxsOfKey l k :=
  idxsFrom_map_addLastFlags k l 0

theorem lookup_none_of_hasField_false {fs : List (String × JValue)}
    {k : String} (h : hasField fs k = false) : lookupField fs k = none := by
  cases ho : lookupField fs k with
  | none => rfl
  | some v =>
    unfold hasField at h
    rw [ho] at h
    simp at h

/-- Evaluating the defaulting loop on an element right after group
marking: the `first`/`last` fields end up holding exactly the truth
values of the two marking conditions, and every other field keeps its
value. -/
theorem flags_after (fs : List (String × JValue)) (c1 c2 : Prop)
    [Decidable c1] [Decidable c2]
    (h1 : hasField fs "first" = false) (h2 : hasField fs "last" = false) :
    ∃ fs', addDefaultFlags (.obj (
        if c2 then
          setField (if c1 then setField fs "first" (.bool true) else fs)
            "last" (.bool true)
        else if c1 then setField fs "first" (.bool true) else fs)) =
        .obj fs' ∧
      lookupField fs' "first" = some (.bool (decide c1)) ∧
      lookupField fs' "last" = some (.bool (decide c2)) ∧
      ∀ key, key ≠ "first" → key ≠ "last" →
        lookupField fs' key = lookupField fs key := by
  have h1' := lookup_none_of_hasField_false h1
  have h2' := lookup_none_of_hasField_false h2
  have hfl : ("first" : String) ≠ "last" := by decide
  by_cases hc1 : c1 <;> by_cases hc2 : c2
  · refine ⟨setField (setField fs "first" (.bool true)) "last" (.bool true),
      ?_, ?_, ?_, ?_⟩
    · have hf : hasField (setField (setField fs "first" (.bool true))
          "last" (.bool true)) "first" = true := by
        unfold hasField
        rw [lookupField_setField_ne _ _ _ _ hfl, lookupField_setField_self]
        rfl
      have hl : hasField (setField (setField fs "first" (.bool true))
          "last" (.bool true)) "last" = true := by
        unfold hasField
        rw [lookupField_setField_self]
        rfl
      simp [addDefaultFlags, hc1, hc2, hf, hl]
    · rw [lookupField_setField_ne _ _ _ _ hfl, lookupField_setField_self,
        decide_eq_true hc1]
    · rw [lookupField_setField_self, decide_eq_true hc2]
    · intro key hkf hkl
      rw [lookupField_setField_ne _ _ _ _ hkl,
        lookupField_setField_ne _ _ _ _ hkf]
  · refine ⟨setField fs "first" (.bool true) ++ [("last", .bool false)],
      ?_, ?_, ?_, ?_⟩
    · have hf : hasField (setField fs "first" (.bool true)) "first" = true := by
        unfold hasField
        rw [lookupField_setField_self]
        rfl
      have hl : hasField (setField fs "first" (.bool true)) "last" = false := by
        unfold hasField
        rw [lookupField_setField_ne _ _ _ _ (Ne.symm hfl), h2']
        rfl
      simp [addDefaultFlags, hc1, hc2, hf, hl]
    · simp [lookupField_append, lookupField_setField_self, decide_eq_true hc1]
    · simp [lookupField_append, lookupField_setField_ne _ _ _ _ (Ne.symm hfl),
        h2', lookupField, decide_eq_false hc2]
    · intro key hkf hkl
      rw [lookupField_append, lookupField_setField_ne _ _ _ _ hkf]
      cases ho : lookupField fs key with
      | some v => rfl
      | none => simp [lookupField, Ne.symm hkl]
  · refine ⟨setField fs "last" (.bool true) ++ [("first", .bool false)],
      ?_, ?_, ?_, ?_⟩
    · have hf : hasField (setField fs "last" (.bool true)) "first" = false := by
        unfold hasField
        rw [lookupField_setField_ne _ _ _ _ hfl, h1']
        rfl
      have hl : hasField (setField fs "last" (.bool true) ++
          [("first", .bool false)]) "last" = true := by
        simp [hasField, lookupField_append, lookupField_setField_self]
      simp [addDefaultFlags, hc1, hc2, hf, hl]
    · simp [lookupField_append, lookupField_setField_ne _ _ _ _ hfl, h1',
        lookupField, decide_eq_false hc1]
    · simp [lookupField_append, lookupField_setField_self, decide_eq_true hc2]
    · intro key hkf hkl
      rw [lookupField_append, lookupField_setField_ne _ _ _ _ hkl]
      cases ho : lookupField fs key with
      | some v => rfl
      | none => simp [lookupField, Ne.symm hkf]
  · refine ⟨(fs ++ [("first", .bool false)]) ++ [("last", .bool false)],
      ?_, ?_, ?_, ?_⟩
    · have hl : hasField (fs ++ [("first", .bool false)]) "last" = false := by
        simp [hasField, lookupField_append, h2', lookupField, hfl]
      simp [addDefaultFlags, hc1, hc2, h1, hl]
    · simp [lookupField_append, h1', lookupField, decide_eq_false hc1]
    · simp [lookupField_append, h1', h2', lookupField, hfl,
        decide_eq_false hc2]
    · intro key hkf hkl
      rw [lookupField_append, lookupField_append]
      cases ho : lookupField fs key with
      | some v => rfl
      | none => simp [lookupField, Ne.symm hkf, Ne.symm hkl]

theorem dict_at_of_mem_idxs {l : List JValue} {k : String} {j : Nat}
    (h : j ∈ idxsOfKey l k) :
    ∃ fs, l[j]? = some (JValue.obj fs) ∧
      groupKeyOf (JValue.obj fs) = some k := by
  obtain ⟨v, hv, hkv⟩ := mem_idxsOfKey.mp h
  cases v with
  | obj fs => exact ⟨fs, hv, hkv⟩
  | null => simp [groupKeyOf] at hkv
  | bool b => simp [groupKeyOf] at hkv
  | num n => simp [groupKeyOf] at hkv
  | str s => simp [groupKeyOf] at hkv
  | arr es => simp [groupKeyOf] at hkv

/-- Element-wise description of the whole per-array treatment: after
grouping, marking and defaulting, the element at `j` holds
`first = (j heads its group)`, `last = (j ends its group)`, and every
other field unchanged. -/
theorem element_after {l : List JValue} {j : Nat}
    {fs : List (String × JValue)} {k : String}
    (hj : l[j]? = some (JValue.obj fs))
    (hk : groupKeyOf (JValue.obj fs) = some k)
    (h1 : hasField fs "first" = false) (h2 : hasField fs "last" = false) :
    ∃ fs', (markFirstLast l)[j]? = some (JValue.obj fs') ∧
      lookupField fs' "first" =
        some (.bool (decide ((idxsOfKey l k).head? = some j))) ∧
      lookupField fs' "last" =
        some (.bool (decide ((idxsOfKey l k).getLast? = some j))) ∧
      ∀ key, key ≠ "first" → key ≠ "last" →
        lookupField fs' key = lookupField fs key := by
  have hm := marked_at hj hk
  obtain ⟨fs', hdf, hf, hl, ho⟩ := flags_after fs
    ((idxsOfKey l k).head? = some j) ((idxsOfKey l k).getLast? = some j)
    h1 h2
  refine ⟨fs', ?_, hf, hl, ho⟩
  unfold markFirstLast
  rw [List.getElem?_map, hm]
  show some (addDefaultFlags (.obj (
      if (idxsOfKey l k).getLast? = some j then
        setField (if (idxsOfKey l k).head? = some j
                  then setField fs "first" (.bool true) else fs)
          "last" (.bool true)
      else if (idxsOfKey l k).head? = some j
           then setField fs "first" (.bool true) else fs))) =
    some (.obj fs')
  rw [hdf]

/-- C6: on an array of dict elements that fall into two non-empty
kind-groups (grouping by `kind`, with `CXXMethodDecl` split by
`isImplicit`, no flags present beforehand), the ordering pass preserves
length and order, gives each element `first`/`last` flags equal to
whether it heads/ends its own group in array order, leaves every other
field at the recursively processed image of its old value, and each
group has exactly one element with `first = true` and exactly one with
`last = true`; all other elements carry both flags `false`. -/
theorem claim_C6 (l : List JValue) (k1 k2 : String)
    (_hdict : ∀ v ∈ l, isObjB v = true)
    (_hkeys : ∀ v ∈ l, groupKeyOf v = some k1 ∨ groupKeyOf v = some k2)
    (_hne : k1 ≠ k2)
    (ha : idxsOfKey l k1 ≠ []) (hb : idxsOfKey l k2 ≠ [])
    (hnof : ∀ v ∈ l, noFlagsB v = true) :
    ∃ m, processListValue (.arr l) = .arr m ∧
      m.length = l.length ∧
      (∀ j fs k, l[j]? = some (JValue.obj fs) →
        groupKeyOf (JValue.obj fs) = some k →
        ∃ fs', m[j]? = some (JValue.obj fs') ∧
          lookupField fs' "first" =
            some (.bool (decide ((idxsOfKey l k).head? = some j))) ∧
          lookupField fs' "last" =
            some (.bool (decide ((idxsOfKey l k).getLast? = some j))) ∧
          ∀ key, key ≠ "first" → key ≠ "last" →
            lookupField fs' key =
              (lookupField fs key).map processListValue) ∧
      (∀ k, k = k1 ∨ k = k2 →
        (∃! j, j ∈ idxsOfKey l k ∧ ∃ fs',
          m[j]? = some (JValue.obj fs') ∧
          lookupField fs' "first" = some (.bool true)) ∧
        (∃! j, j ∈ idxsOfKey l k ∧ ∃ fs',
          m[j]? = some (JValue.obj fs') ∧
          lookupField fs' "last" = some (.bool true))) := by
  cases l with
  | nil => exact absurd rfl ha
  | cons e es =>
  have hnoflags : ∀ (j' : Nat) (fsj : List (String × JValue)),
      (e :: es)[j']? = some (JValue.obj fsj) →
      hasField fsj "first" = false ∧ hasField fsj "last" = false := by
    intro j' fsj hfj
    have hmem : JValue.obj fsj ∈ e :: es := List.getElem?_mem hfj
    have hnf := hnof _ hmem
    simp [noFlagsB] at hnf
    exact hnf
  have htrans : ∀ (j : Nat) fs k, (e :: es)[j]? = some (JValue.obj fs) →
      groupKeyOf (JValue.obj fs) = some k →
      ∃ fs',
        (markFirstLast ((e :: es).map add_last_flags_recursive))[j]? =
          some (JValue.obj fs') ∧
        lookupField fs' "first" =
          some (.bool (decide ((idxsOfKey (e :: es) k).head? = some j))) ∧
        lookupField fs' "last" =
          some (.bool (decide ((idxsOfKey (e :: es) k).getLast? = some j))) ∧
        ∀ key, key ≠ "first" → key ≠ "last" →
          lookupField fs' key = (lookupField fs key).map processListValue := by
    intro j fs k hj hk
    have hj2 : ((e :: es).map add_last_flags_recursive)[j]? =
        some (JValue.obj (lastFlagsFields fs)) := by
      rw [List.getElem?_map, hj]
      simp [add_last_flags_recursive]
    have hk2 : groupKeyOf (JValue.obj (lastFlagsFields fs)) = some k := by
      rw [groupKeyOf_lastFlagsFields]
      exact hk
    obtain ⟨hn1, hn2⟩ := hnoflags j fs hj
    have hn1' : hasField (lastFlagsFields fs) "first" = false := by
      rw [hasField_lastFlagsFields]
      exact hn1
    have hn2' : hasField (lastFlagsFields fs) "last" = false := by
      rw [hasField_lastFlagsFields]
      exact hn2
    obtain ⟨fs', hm', hf', hl', ho'⟩ := element_after hj2 hk2 hn1' hn2'
    rw [idxsOfKey_map_addLastFlags] at hf' hl'
    refine ⟨fs', hm', hf', hl', ?_⟩
    intro key hkf hkl
    rw [ho' key hkf hkl, lookupField_lastFlagsFields]
  refine ⟨markFirstLast ((e :: es).map add_last_flags_recursive),
    ?_, ?_, ?_, ?_⟩
  · simp only [processListValue]
    rw [lastFlagsItems_eq_map]
  · unfold markFirstLast
    rw [List.length_map, length_markGroups, List.length_map]
  · intro j fs k hj hk
    exact htrans j fs k hj hk
  · intro k hk12
    have hne' : idxsOfKey (e :: es) k ≠ [] := by
      rcases hk12 with h | h
      · rw [h]; exact ha
      · rw [h]; exact hb
    obtain ⟨j0, rest, hidxs⟩ :
        ∃ j0 rest, idxsOfKey (e :: es) k = j0 :: rest := by
      cases hx : idxsOfKey (e :: es) k with
      | nil => exact absurd hx hne'
      | cons a b => exact ⟨a, b, rfl⟩
    have hflags : ∀ j', j' ∈ idxsOfKey (e :: es) k →
        ∃ fs',
          (markFirstLast ((e :: es).map add_last_flags_recursive))[j']? =
            some (JValue.obj fs') ∧
          lookupField fs' "first" =
            some (.bool (decide
              ((idxsOfKey (e :: es) k).head? = some j'))) ∧
          lookupField fs' "last" =
            some (.bool (decide
              ((idxsOfKey (e :: es) k).getLast? = some j'))) := by
      intro j' hj'
      obtain ⟨fsj, hfj, hkj⟩ := dict_at_of_mem_idxs hj'
      obtain ⟨fs', hm', hf', hl', _⟩ := htrans j' fsj k hfj hkj
      exact ⟨fs', hm', hf', hl'⟩
    have hhead : (idxsOfKey (e :: es) k).head? = some j0 := by
      rw [hidxs]
      rfl
    have hlast : (idxsOfKey (e :: es) k).getLast? =
        some (rest.getLastD j0) := by
      rw [hidxs]
      exact getLast?_cons_getLastD j0 rest
    have hj0mem : j0 ∈ idxsOfKey (e :: es) k := by
      rw [hidxs]
      exact List.mem_cons_self _ _
    have hjlmem : rest.getLastD j0 ∈ idxsOfKey (e :: es) k := by
      rw [hidxs]
      exact getLastD_mem_cons rest j0
    constructor
    · obtain ⟨fs', hm', hf', _⟩ := hflags j0 hj0mem
      refine ⟨j0, ⟨hj0mem, fs', hm', by rw [hf', hhead]; simp⟩, ?_⟩
      rintro j' ⟨hj'mem, fs'', hm'', hfi''⟩
      obtain ⟨fsb, hmb, hfb, _⟩ := hflags j' hj'mem
      rw [hm''] at hmb
      have hfe : fsb = fs'' := JValue.obj.inj (Option.some.inj hmb).symm
      rw [hfe, hfi''] at hfb
      have hd : decide ((idxsOfKey (e :: es) k).head? = some j') = true := by
        injection hfb.symm with h'
        injection h'
      have hsome := of_decide_eq_true hd
      rw [hhead] at hsome
      exact (Option.some.inj hsome).symm
    · obtain ⟨fs', hm', _, hl'⟩ := hflags (rest.getLastD j0) hjlmem
      refine ⟨rest.getLastD j0, ⟨hjlmem, fs', hm', by rw [hl', hlast]; simp⟩,
        ?_⟩
      rintro j' ⟨hj'mem, fs'', hm'', hla''⟩
      obtain ⟨fsb, hmb, _, hlb⟩ := hflags j' hj'mem
      rw [hm''] at hmb
      have hfe : fsb = fs'' := JValue.obj.inj (Option.some.inj hmb).symm
      rw [hfe, hla''] at hlb
      have hd : decide ((idxsOfKey (e :: es) k).getLast? = some j') = true := by
        injection hlb.symm with h'
        injection h'
      have hsome := of_decide_eq_true hd
      rw [hlast] at hsome
      exact (Option.some.inj hsome).symm

def c6L : List JValue :=
  [.obj [("kind", .str "FieldDecl"),
         ("type", .obj [("qualType", .str "int")])],
   .obj [("kind", .str "CXXMethodDecl"),
         ("inner", .arr [.obj [("kind", .str "ParmVarDecl"),
                               ("name", .str "x")]])],
   .obj [("kind", .str "FieldDecl")]]

/-- Witness for C6: a three-element array whose elements carry nested
dict and list fields (a `type` dict and an `inner` list, as clang
emits), with a two-element `FieldDecl` group and a one-element
implicit-split `CXXMethodDecl` group; every hypothesis holds and the
ordering pass flags it as claimed. -/
theorem claim_C6_witness :
    (∀ v ∈ c6L, isObjB v = true) ∧
    (∀ v ∈ c6L, groupKeyOf v = some "FieldDecl" ∨
      groupKeyOf v = some "CXXMethodDecl+isImplicit=False") ∧
    ("FieldDecl" : String) ≠ "CXXMethodDecl+isImplicit=False" ∧
    idxsOfKey c6L "FieldDecl" ≠ [] ∧
    idxsOfKey c6L "CXXMethodDecl+isImplicit=False" ≠ [] ∧
    (∀ v ∈ c6L, noFlagsB v = true) ∧
    (∃ m, processListValue (.arr c6L) = .arr m ∧
      m.length = c6L.length ∧
      (∀ j fs k, c6L[j]? = some (JValue.obj fs) →
        groupKeyOf (JValue.obj fs) = some k →
        ∃ fs', m[j]? = some (JValue.obj fs') ∧
          lookupField fs' "first" =
            some (.bool (decide ((idxsOfKey c6L k).head? = some j))) ∧
          lookupField fs' "last" =
            some (.bool (decide ((idxsOfKey c6L k).getLast? = some j))) ∧
          ∀ key, key ≠ "first" → key ≠ "last" →
            lookupField fs' key =
              (lookupField fs key).map processListValue) ∧
      (∀ k, k = "FieldDecl" ∨ k = "CXXMethodDecl+isImplicit=False" →
        (∃! j, j ∈ idxsOfKey c6L k ∧ ∃ fs',
          m[j]? = some (JValue.obj fs') ∧
          lookupField fs' "first" = some (.bool true)) ∧
        (∃! j, j ∈ idxsOfKey c6L k ∧ ∃ fs',
          m[j]? = some (JValue.obj fs') ∧
          lookupField fs' "last" = some (.bool true)))) :=
  ⟨by decide, by decide, by decide, by decide, by decide, by decide,
   claim_C6 c6L "FieldDecl" "CXXMethodDecl+isImplicit=False"
     (by decide) (by decide) (by decide) (by decide) (by decide)
     (by decide)⟩

/-! ### The qualified-name block of the walker
(`add_wit_format_names_recursive`) -/

/-- The `if root_namespace:` block of the CXXRecordDecl branch of
`add_wit_format_names_recursive` (generate_cxx_ast.py:809-819): with a
truthy root namespace, assigns
`full_qualified_name = "::" + root_namespace + "::" + interface_name`,
then `interface_name_hash` and `interface_id`, both equal to
`calculate_name_hash` of that string. -/
def witQualBlock (root_namespace : Option String) (interface_name : String)
    (fs : List (String × JValue)) : List (String × JValue) :=
  match root_namespace with
  | some root =>
    if root = "" then fs
    else
      applySets fs
        [("full_qualified_name",
           .str ("::" ++ root ++ "::" ++ interface_name)),
         ("interface_name_hash",
           .num (calculate_name_hash ("::" ++ root ++ "::" ++ interface_name))),
         ("interface_id",
           .num (calculate_name_hash ("::" ++ root ++ "::" ++ interface_name)))]
  | none => fs

/-- The guards of the CXXRecordDecl branch (generate_cxx_ast.py:752-755)
leading to the qualified-name block: the node's `kind` is
`CXXRecordDecl`, `package_name` is truthy and the node's local `name` is
truthy.  The branch also assigns the per-language WIT name fields
(lines 756-805); those go to keys distinct from the three assigned
here, so they are omitted from this projection of the branch, which
tracks exactly the fields the qualified-name block writes. -/
def witRecordQualFields (package_name root_namespace : Option String)
    (fs : List (String × JValue)) : List (String × JValue) :=
  if kindOf (.obj fs) = some "CXXRecordDecl" then
    match package_name with
    | some pkg =>
      if pkg = "" then fs
      else
        match getTruthyStr (.obj fs) "name" with
        | some interface_name => witQualBlock root_namespace interface_name fs
        | none => fs
    | none => fs
  else fs

def c3Fields : List (String × JValue) :=
  [("kind", .str "CXXRecordDecl"), ("name", .str "ISample")]

/-- Counterexample for C3: for root namespace `Arieo` and interface
`ISample`, the code derives `::Arieo::ISample` — with a leading `::` —
while the claim's `root "::" name` would be `Arieo::ISample`. -/
theorem claim_C3_counterexample :
    lookupField
        (witRecordQualFields (some "arieo:sample") (some "Arieo") c3Fields)
        "full_qualified_name" = some (.str "::Arieo::ISample") ∧
    ("::Arieo::ISample" : String) ≠ "Arieo" ++ "::" ++ "ISample" := by
  constructor
  · rfl
  · decide

/-- C3 (amended): for every CXXRecordDecl node with truthy package
name, truthy local name and truthy root namespace, the derived
`full_qualified_name` is `"::" ++ root ++ "::" ++ name` (with a leading
`::`), and `interface_name_hash` and `interface_id` are the 64-bit name
hash of exactly that string. -/
theorem claim_C3 (pkg root iname : String) (fs : List (String × JValue))
    (hpkg : pkg ≠ "") (hroot : root ≠ "")
    (hkind : kindOf (.obj fs) = some "CXXRecordDecl")
    (hname : getTruthyStr (.obj fs) "name" = some iname) :
    lookupField (witRecordQualFields (some pkg) (some root) fs)
        "full_qualified_name" =
      some (.str ("::" ++ root ++ "::" ++ iname)) ∧
    lookupField (witRecordQualFields (some pkg) (some root) fs)
        "interface_name_hash" =
      some (.num (calculate_name_hash ("::" ++ root ++ "::" ++ iname))) ∧
    lookupField (witRecordQualFields (some pkg) (some root) fs)
        "interface_id" =
      some (.num (calculate_name_hash ("::" ++ root ++ "::" ++ iname))) := by
  have hq : witRecordQualFields (some pkg) (some root) fs =
      setField (setField (setField fs
        "full_qualified_name" (.str ("::" ++ root ++ "::" ++ iname)))
        "interface_name_hash"
        (.num (calculate_name_hash ("::" ++ root ++ "::" ++ iname))))
        "interface_id"
        (.num (calculate_name_hash ("::" ++ root ++ "::" ++ iname))) := by
    simp only [witRecordQualFields, if_pos hkind, if_neg hpkg, hname,
      witQualBlock, if_neg hroot, applySets, List.foldl]
  have h1 : ("full_qualified_name" : String) ≠ "interface_id" := by decide
  have h2 : ("full_qualified_name" : String) ≠ "interface_name_hash" := by
    decide
  have h3 : ("interface_name_hash" : String) ≠ "interface_id" := by decide
  refine ⟨?_, ?_, ?_⟩
  · rw [hq, lookupField_setField_ne _ _ _ _ h1,
      lookupField_setField_ne _ _ _ _ h2, lookupField_setField_self]
  · rw [hq, lookupField_setField_ne _ _ _ _ h3, lookupField_setField_self]
  · rw [hq, lookupField_setField_self]

/-- Witness for C3: the concrete `ISample` record under package
`arieo:sample` and root namespace `Arieo`. -/
theorem claim_C3_witness :
    ("arieo:sample" : String) ≠ "" ∧ ("Arieo" : String) ≠ "" ∧
    kindOf (.obj c3Fields) = some "CXXRecordDecl" ∧
    getTruthyStr (.obj c3Fields) "name" = some "ISample" ∧
    (lookupField
        (witRecordQualFields (some "arieo:sample") (some "Arieo") c3Fields)
        "full_qualified_name" =
      some (.str ("::" ++ "Arieo" ++ "::" ++ "ISample")) ∧
    lookupField
        (witRecordQualFields (some "arieo:sample") (some "Arieo") c3Fields)
        "interface_name_hash" =
      some (.num (calculate_name_hash ("::" ++ "Arieo" ++ "::" ++ "ISample"))) ∧
    lookupField
        (witRecordQualFields (some "arieo:sample") (some "Arieo") c3Fields)
        "interface_id" =
      some (.num (calculate_name_hash ("::" ++ "Arieo" ++ "::" ++ "ISample")))) :=
  ⟨by decide, by decide, rfl, rfl,
   claim_C3 "arieo:sample" "Arieo" "ISample" c3Fields
     (by decide) (by decide) rfl rfl⟩

/-! ### The annotation pass (`add_annotation_strings_recursive`) -/

/-- Python `str.lower()` (ASCII text: `Char.toLower` lowercases exactly
the ASCII uppercase letters, as Python does on ASCII input). -/
def pyLower (s : String) : String := ⟨s.data.map Char.toLower⟩

/-- `node.get(key, {})`: a later `.get` on the result treats a present
non-dict value as having no fields (CPython would raise
`AttributeError` there; clang location nodes are dicts, so that path is
outside the modelled domain). -/
def getFieldD (v : JValue) (key : String) : JValue :=
  match getField v key with
  | some w => w
  | none => .obj []

/-- A character of the regex class `[A-Za-z0-9_]`. -/
def isWordCharMeta (c : Char) : Bool := c.isAlphanum || c = '_'

def stripPrefixChars : List Char → List Char → Option (List Char)
  | [], l => some l
  | _ :: _, [] => none
  | p :: ps, c :: cs => if c = p then stripPrefixChars ps cs else none

/-- Attempt the regex `METADATA\s*\(\s*([A-Za-z0-9_]+)\s*\)` at the head
of `l`, returning the captured group.  The pattern is deterministic
(fixed literal, then greedy runs), so no backtracking is needed. -/
def matchMetaAt (l : List Char) : Option String :=
  match stripPrefixChars "METADATA".data l with
  | none => none
  | some r1 =>
    match r1.dropWhile pyIsSpace with
    | '(' :: r2 =>
      let r3 := r2.dropWhile pyIsSpace
      let word := r3.takeWhile isWordCharMeta
      if word.isEmpty then none
      else
        match (r3.dropWhile isWordCharMeta).dropWhile pyIsSpace with
        | ')' :: _ => some ⟨word⟩
        | _ => none
    | _ => none

/-- `re.search`: the match at the leftmost position where one exists. -/
def searchMeta : List Char → Option String
  | [] => none
  | c :: rest =>
    match matchMetaAt (c :: rest) with
    | some s => some s
    | none => searchMeta rest

/-- `extract_annotation_text` (generate_cxx_ast.py:586): look for a
`METADATA(identifier)` pattern on the 1-based `line` of the source (the
`col` argument is accepted and ignored, as in the source). -/
def extract_annotation_text (srcLines : List String) (line : Nat)
    (_col : Nat) : Option String :=
  if line < 1 || line > srcLines.length then none
  else
    match srcLines[line - 1]? with
    | some content => searchMeta content.data
    | none => none

/-- The location lookup and guard of the `AnnotateAttr` branch
(generate_cxx_ast.py:631-658): take `range.begin`, prefer a truthy
`expansionLoc`, require truthy `line`, `col` and `file`, require the
file to equal the processed source file (paths are compared after
`os.path.normpath`; the build system hands both sides already
normalized, so the comparison is plain equality here), and extract a
truthy annotation text from that line. -/
def metaTextOf (srcPath : String) (srcLines : List String)
    (fs : List (String × JValue)) : Option String :=
  let rangeBegin := getFieldD (getFieldD (.obj fs) "range") "begin"
  let loc := if jTruthy (getFieldD rangeBegin "expansionLoc")
             then getFieldD rangeBegin "expansionLoc" else rangeBegin
  match getField loc "line", getField loc "col", getField loc "file" with
  | some (.num ln), some (.num c), some (.str fp) =>
    if ln ≠ 0 && c ≠ 0 && fp ≠ "" then
      if fp = srcPath then
        match extract_annotation_text srcLines ln c with
        | some t => if t = "" then none else some t
        | none => none
      else none
    else none
  | _, _, _ => none

mutual
/-- `add_annotation_strings_recursive` (generate_cxx_ast.py:620): on an
`AnnotateAttr` dict whose location guard succeeds, store the extracted
text; recurse only into a present list-valued `inner`.  Non-dict nodes
are returned unchanged.  (Python assigns the text field and then walks
`inner`; the two touch different keys, so mapping `inner` first and
assigning afterwards is equivalent.) -/
def add_annotation_strings_recursive (srcPath : String)
    (srcLines : List String) : JValue → JValue
  | .obj fs =>
    .obj (match (if hasKind (.obj fs) "AnnotateAttr"
                 then metaTextOf srcPath srcLines fs else none) with
          | some t =>
            setField (annFields srcPath srcLines fs) "annotation" (.str t)
          | none => annFields srcPath srcLines fs)
  | v => v
def annFields (srcPath : String) (srcLines : List String) :
    List (String × JValue) → List (String × JValue)
  | [] => []
  | (k, v) :: tl =>
    (k, if k = "inner" then
          match v with
          | .arr children =>
            .arr (annChildren srcPath srcLines children)
          | w => w
        else v) :: annFields srcPath srcLines tl
def annChildren (srcPath : String) (srcLines : List String) :
    List JValue → List JValue
  | [] => []
  | c :: rest =>
    add_annotation_strings_recursive srcPath srcLines c ::
      annChildren srcPath srcLines rest
end

/-! ### The full WIT-name walker (`add_wit_format_names_recursive`) -/

/-- The parameters threaded through `add_wit_format_names_recursive`
(generate_cxx_ast.py:727): the package and root namespace, the
namespace stack (built for `NamespaceDecl` nodes and otherwise unused
by the source), and the eight parent-interface values refreshed by the
`CXXRecordDecl` branch. -/
structure WitCtx where
  package_name : Option String
  root_namespace : Option String
  namespace_stack : List String
  parent_interface_qualified_name : Option String
  parent_wit_interface_fullname : Option String
  parent_witgen_cxx_interface_fullname : Option String
  parent_witgen_csharp_interface_fullname : Option String
  parent_witgen_rust_interface_fullname : Option String
  parent_wasm_cxx_interface_fullname : Option String
  parent_wasm_csharp_interface_name : Option String
  parent_wasm_rust_interface_fullname : Option String

/-- Truthiness of an `Optional[str]`. -/
def optTruthy : Option String → Bool
  | some s => s ≠ ""
  | none => false

/-- The `CXXRecordDecl` branch (generate_cxx_ast.py:752-826), reached
with a truthy package name: computes the ordered field assignments and
the refreshed parent context (the parents change only inside the
`if root_namespace:` block, as in the source).  The source's
`root_namespace.replace('::', '::')` is the identity and is dropped. -/
def witRecordBranch (ctx : WitCtx) (fs : List (String × JValue)) :
    List (String × JValue) × WitCtx :=
  match getTruthyStr (.obj fs) "name" with
  | none => ([], ctx)
  | some interface_name =>
    let pkg := ctx.package_name.getD ""
    let wit_interface_fullname :=
      convert_interface_name_to_wit_format pkg interface_name
    let wit_interface_name : String :=
      if wit_interface_fullname.data.contains '/' then
        ⟨(splitOnChar '/' wit_interface_fullname.data).getLastD []⟩
      else wit_interface_fullname
    let witgen_cxx_interface_fullname :=
      convert_wit_to_cxx_script_full_interface_name wit_interface_fullname
    let cxx_script_interface_fullname :=
      if optTruthy ctx.root_namespace then
        ctx.root_namespace.getD "" ++ "::" ++ interface_name
      else
        convert_wit_to_cxx_script_full_interface_name wit_interface_fullname
    let cxx_script_interface_name : String :=
      ⟨(splitOnColonColon cxx_script_interface_fullname.data).getLastD []⟩
    let csharp_interface_fullname :=
      convert_wit_to_csharp_full_interface_name wit_interface_fullname
    let witgen_rust_interface_fullname :=
      convert_wit_to_rust_full_interface_name wit_interface_fullname
    let rust_interface_fullname :=
      if optTruthy ctx.root_namespace then
        "crate::" ++ pyLower (ctx.root_namespace.getD "") ++ "::" ++
          interface_name
      else convert_wit_to_rust_full_interface_name wit_interface_fullname
    let base :=
      [("wit_interface_fullname", JValue.str wit_interface_fullname),
       ("wit_interface_name", JValue.str wit_interface_name),
       ("witgen_cxx_interface_fullname",
         JValue.str witgen_cxx_interface_fullname),
       ("wasm_cxx_interface_fullname",
         JValue.str cxx_script_interface_fullname),
       ("wasm_cxx_interface_name", JValue.str cxx_script_interface_name),
       ("witgen_csharp_interface_fullname",
         JValue.str csharp_interface_fullname),
       ("wasm_csharp_interface_name", JValue.str interface_name),
       ("witgen_rust_interface_fullname",
         JValue.str witgen_rust_interface_fullname),
       ("wasm_rust_interface_fullname", JValue.str rust_interface_fullname),
       ("wasm_rust_interface_name", JValue.str interface_name)]
    if optTruthy ctx.root_namespace then
      let root := ctx.root_namespace.getD ""
      let full_qualified_name := "::" ++ root ++ "::" ++ interface_name
      let nameHash := calculate_name_hash full_qualified_name
      (base ++
        [("wasm_cxx_namespace_fullname", JValue.str root),
         ("wasm_dotnet_script_namespace_fullname",
           JValue.str ⟨replaceColonColonWith ['.'] root.data⟩),
         ("wasm_rust_namespace_fullname",
           JValue.str (pyLower ⟨replaceColonColonWith ['.'] root.data⟩)),
         ("full_qualified_name", JValue.str full_qualified_name),
         ("interface_name_hash", JValue.num nameHash),
         ("interface_id", JValue.num nameHash)],
       { ctx with
         parent_interface_qualified_name := some full_qualified_name
         parent_wit_interface_fullname := some wit_interface_fullname
         parent_witgen_cxx_interface_fullname :=
           some witgen_cxx_interface_fullname
         parent_witgen_csharp_interface_fullname :=
           some csharp_interface_fullname
         parent_witgen_rust_interface_fullname :=
           some witgen_rust_interface_fullname
         parent_wasm_cxx_interface_fullname :=
           some cxx_script_interface_fullname
         parent_wasm_csharp_interface_name := some interface_name
         parent_wasm_rust_interface_fullname :=
           some rust_interface_fullname })
    else (base, ctx)

/-- The `CXXMethodDecl` branch (generate_cxx_ast.py:829-904): the
ordered field assignments for a method with a truthy name. -/
def witMethodBranch (ctx : WitCtx) (fs : List (String × JValue)) :
    List (String × JValue) :=
  match getTruthyStr (.obj fs) "name" with
  | none => []
  | some func_name =>
    let wit_func_name := convert_function_name_to_wit_format func_name
    let witgen_cxx_func_name := convert_wit_to_cxx_function_name wit_func_name
    let witgen_rust_func_name := convert_wit_to_rust_function_name wit_func_name
    let rust_wrapper_method_name :=
      convert_method_name_to_rust_snake_case func_name
    [("wit_function_name", JValue.str wit_func_name),
     ("witgen_cxx_function_name", JValue.str witgen_cxx_func_name)] ++
    (match ctx.parent_witgen_cxx_interface_fullname with
     | some p => if p = "" then [] else
       [("witgen_cxx_function_fullname",
         JValue.str (p ++ "::" ++ witgen_cxx_func_name))]
     | none => []) ++
    [("witgen_csharp_function_name", JValue.str witgen_cxx_func_name)] ++
    (match ctx.parent_witgen_csharp_interface_fullname with
     | some p => if p = "" then [] else
       [("witgen_csharp_function_fullname",
         JValue.str (p ++ "." ++ witgen_cxx_func_name))]
     | none => []) ++
    [("witgen_rust_function_name", JValue.str witgen_rust_func_name)] ++
    (match ctx.parent_witgen_rust_interface_fullname with
     | some p => if p = "" then [] else
       [("witgen_rust_function_fullname",
         JValue.str (p ++ "::" ++ witgen_rust_func_name))]
     | none => []) ++
    [("wasm_cxx_function_name", JValue.str func_name)] ++
    (match ctx.parent_wasm_cxx_interface_fullname with
     | some p => if p = "" then [] else
       [("wasm_cxx_function_fullname", JValue.str (p ++ "::" ++ func_name))]
     | none => []) ++
    [("wasm_csharp_function_name", JValue.str func_name)] ++
    (match ctx.parent_wasm_csharp_interface_name with
     | some p => if p = "" then [] else
       [("wasm_csharp_function_fullname", JValue.str (p ++ "." ++ func_name))]
     | none => []) ++
    [("rust_wrapper_method_name", JValue.str rust_wrapper_method_name),
     ("wasm_rust_function_name", JValue.str rust_wrapper_method_name)] ++
    (match ctx.parent_wasm_rust_interface_fullname with
     | some p => if p = "" then [] else
       [("wasm_rust_function_fullname",
         JValue.str (p ++ "::" ++ rust_wrapper_method_name))]
     | none => []) ++
    (match ctx.parent_wit_interface_fullname with
     | some p =>
       if p = "" then [] else
         [("wit_interface_fullname", JValue.str p),
          ("cxx_namespace", JValue.str (convert_wit_to_cxx_namespace p)),
          ("cxx_function_name",
            JValue.str (match replaceChar '-' ['_'] wit_func_name.data with
                        | [] => ⟨[]⟩
                        | c :: rest => ⟨c.toUpper :: rest⟩))]
     | none => []) ++
    (match ctx.parent_interface_qualified_name with
     | some p =>
       if p = "" then [] else
         let q := p ++ "::" ++ func_name
         [("function_name_hash", JValue.num (calculate_name_hash q)),
          ("function_id", JValue.num (calculate_name_hash q))]
     | none => []) ++
    [("function_checksum",
      JValue.num (calculate_function_checksum func_name (methodParams fs)))]

mutual
/-- `add_wit_format_names_recursive` (generate_cxx_ast.py:727): track
namespaces, enrich `CXXRecordDecl` and `CXXMethodDecl` nodes, and
recurse into every dict value and list item with the refreshed context.
(Python assigns the fields and then recurses over `node.values()`; the
assigned values are strings and numbers, on which the recursion is the
identity and which overwrite whatever the recursion produced for a
same-named pre-existing key, so recursing first and assigning
afterwards is equivalent.  The method branch reads its parameters from
the un-recursed children; the recursion never changes a `ParmVarDecl`'s
scalar `name` or `type.qualType`, so reading them from the recursed
children is also equivalent.) -/
def add_wit_format_names_recursive (ctx : WitCtx) : JValue → JValue
  | .obj fs =>
    .obj
      (let kind := kindOf (.obj fs)
       let ctx1 :=
         if kind == some "NamespaceDecl" then
           match getTruthyStr (.obj fs) "name" with
           | some nm =>
             { ctx with namespace_stack := ctx.namespace_stack ++ [nm] }
           | none => ctx
         else ctx
       match (if kind == some "CXXRecordDecl" && optTruthy ctx.package_name
              then witRecordBranch ctx1 fs else ([], ctx1)) with
       | (upds2, ctx2) =>
         applySets (witFields ctx2 fs)
           (upds2 ++
             (if kind == some "CXXMethodDecl"
              then witMethodBranch ctx2 fs else [])))
  | .arr es => .arr (witItems ctx es)
  | v => v
def witFields (ctx : WitCtx) :
    List (String × JValue) → List (String × JValue)
  | [] => []
  | (k, v) :: tl =>
    (k, add_wit_format_names_recursive ctx v) :: witFields ctx tl
def witItems (ctx : WitCtx) : List JValue → List JValue
  | [] => []
  | v :: tl => add_wit_format_names_recursive ctx v :: witItems ctx tl
end

/-! ### The post-process stage (`post_process_ast_json`) -/

def isStrB : JValue → Bool
  | .str _ => true
  | _ => false

/-- `if line and col and file_path:` followed by
`os.path.normpath(file_path)` (generate_cxx_ast.py:650-655): raises
exactly when all three are truthy and the file is not a string
(`extract_annotation_text` itself catches its own errors and returns
`None`, so a non-numeric line cannot raise). -/
def locFileRaises (lfs : List (String × JValue)) : Bool :=
  match lookupField lfs "line", lookupField lfs "col",
      lookupField lfs "file" with
  | some ln, some c, some f => jTruthy ln && jTruthy c && jTruthy f && !isStrB f
  | _, _, _ => false

/-- The location chain of the `AnnotateAttr` branch
(generate_cxx_ast.py:633-655): `.get` on a present non-dict `range` or
`begin` raises `AttributeError`, as does reading fields off a truthy
non-dict `expansionLoc`; otherwise the chosen location's guard decides
(`locFileRaises`). -/
def annLocRaises (fs : List (String × JValue)) : Bool :=
  match lookupField fs "range" with
  | none => false
  | some (.obj rfs) =>
    match lookupField rfs "begin" with
    | none => false
    | some (.obj bfs) =>
      match lookupField bfs "expansionLoc" with
      | some w =>
        if jTruthy w then
          match w with
          | .obj lfs => locFileRaises lfs
          | _ => true
        else locFileRaises bfs
      | none => locFileRaises bfs
    | some _ => true
  | some _ => true

mutual
/-- The raising nodes of the annotation pass, over its traversal (the
node, then the list-valued `inner` children only; keys of a parsed
JSON object are unique, so walking the field list visits the same
`inner` the pass reads). -/
def scanAnn : JValue → Bool
  | .obj fs =>
    (if hasKind (.obj fs) "AnnotateAttr" then annLocRaises fs else false) ||
    scanAnnFields fs
  | _ => false
def scanAnnFields : List (String × JValue) → Bool
  | [] => false
  | (k, v) :: tl =>
    (if k = "inner" then
       match v with
       | .arr cs => scanAnnItems cs
       | _ => false
     else false) || scanAnnFields tl
def scanAnnItems : List JValue → Bool
  | [] => false
  | c :: tl => scanAnn c || scanAnnItems tl
end

/-- A truthy non-string `name`: the WIT-name branches iterate it
character-wise (`convert_interface_name_to_wit_format`,
`convert_function_name_to_wit_format`; generate_cxx_ast.py:323, 91),
raising `TypeError` on the numeric and scalar shapes, and the later
string concatenations raise on container shapes when a root namespace
is given.  An exotic iterable whose elements are all strings can
survive some of those operations; clang emits only string names, and
the scanner treats every truthy non-string name as raising. -/
def badNameRaises (fs : List (String × JValue)) : Bool :=
  match lookupField fs "name" with
  | some (.str _) => false
  | some w => jTruthy w
  | none => false

mutual
/-- The raising nodes of `add_wit_format_names_recursive`, over its
traversal (every dict value and list item): a `CXXRecordDecl` with a
truthy package name, or a `CXXMethodDecl`, whose truthy `name` is not
a string.  (The pass assigns only scalar fields before recursing, so
scanning the unprocessed values is equivalent.) -/
def scanWit (pkgT : Bool) : JValue → Bool
  | .obj fs =>
    (hasKind (.obj fs) "CXXRecordDecl" && pkgT && badNameRaises fs) ||
    (hasKind (.obj fs) "CXXMethodDecl" && badNameRaises fs) ||
    scanWitFields pkgT fs
  | .arr es => scanWitItems pkgT es
  | _ => false
def scanWitFields (pkgT : Bool) : List (String × JValue) → Bool
  | [] => false
  | (_, v) :: tl => scanWit pkgT v || scanWitFields pkgT tl
def scanWitItems (pkgT : Bool) : List JValue → Bool
  | [] => false
  | v :: tl => scanWit pkgT v || scanWitItems pkgT tl
end

/-- A truthy non-string `type.qualType` on a method:
`qual_type.find('(')` raises `AttributeError`
(generate_cxx_ast.py:971-974). -/
def badQualRaises (fs : List (String × JValue)) : Bool :=
  match lookupField fs "type" with
  | some (.obj tfs) =>
    match lookupField tfs "qualType" with
    | some (.str _) => false
    | some w => jTruthy w
    | none => false
  | _ => false

/-- An unhashable (`list`/`dict`) `qualType` on a `ParmVarDecl` child:
`native_type in TYPE_CONVERSION_TABLE` raises `TypeError`
(generate_cxx_ast.py:68, 994); hashable non-strings miss the table and
pass through. -/
def badParamRaises (child : JValue) : Bool :=
  match child with
  | .obj cfs =>
    hasKind (.obj cfs) "ParmVarDecl" &&
    (match lookupField cfs "type" with
     | some (.obj tfs) =>
       match lookupField tfs "qualType" with
       | some (.arr _) => true
       | some (.obj _) => true
       | _ => false
     | _ => false)
  | _ => false

def badParamsRaises (fs : List (String × JValue)) : Bool :=
  match lookupField fs "inner" with
  | some (.arr items) => items.any badParamRaises
  | _ => false

mutual
/-- The raising nodes of `extract_method_signature_details`, over its
traversal (every dict value and list item).  The earlier passes add
only scalar fields at other keys, so scanning the merged tree is
equivalent to scanning the tree this pass receives. -/
def scanSig : JValue → Bool
  | .obj fs =>
    (hasKind (.obj fs) "CXXMethodDecl" &&
      (badQualRaises fs || badParamsRaises fs)) ||
    scanSigFields fs
  | .arr es => scanSigItems es
  | _ => false
def scanSigFields : List (String × JValue) → Bool
  | [] => false
  | (_, v) :: tl => scanSig v || scanSigFields tl
def scanSigItems : List JValue → Bool
  | [] => false
  | v :: tl => scanSig v || scanSigItems tl
end

theorem mergeFragments_ok_of_objs (fs : List (String × JValue))
    (rest : List JValue)
    (hinner : lookupField fs "inner" = none ∨
      ∃ l, lookupField fs "inner" = some (.arr l))
    (hrest : ∀ o ∈ rest, ∃ gs, o = JValue.obj gs) :
    ∃ gfs, mergeFragments (.obj fs) rest = .ok (.obj gfs) := by
  cases rest with
  | nil => exact ⟨fs, rfl⟩
  | cons r rs =>
    have hfs1 : ∃ fs1,
        (if hasField fs "inner" then fs else fs ++ [("inner", .arr [])]) =
          fs1 ∧ ∃ l1, lookupField fs1 "inner" = some (.arr l1) := by
      rcases hinner with hnone | ⟨l, hl⟩
      · have hhf : hasField fs "inner" = false := by
          simp [hasField, hnone]
        refine ⟨fs ++ [("inner", .arr [])], by simp [hhf], [], ?_⟩
        rw [lookupField_append, hnone]
        simp [lookupField]
      · have hhf : hasField fs "inner" = true := by simp [hasField, hl]
        exact ⟨fs, by simp [hhf], l, hl⟩
    obtain ⟨fs1, hfs1eq, l1, hl1⟩ := hfs1
    simp only [mergeFragments, mapM_innerOfFragment_of_objs _ hrest, hfs1eq]
    by_cases hemp :
        (((r :: rs).map fragInnerOpt).filterMap id).isEmpty = true
    · rw [if_pos hemp]
      exact ⟨fs1, rfl⟩
    · rw [if_neg hemp, hl1]
      exact ⟨_, rfl⟩

